import Mathlib

/-!
Change translator of `nomad/state/events.go`.

A shallow embedding of `GenericEventsFromChanges` and a verification of the
properties stated about it.

Go pointers are modelled by addresses into an explicit heap (a list of cells,
an address is an index).  The after-image of a change is an interface value
holding a pointer; its dynamic type is the kind of the cell it points to.  The
function is embedded in heap-passing style: it takes the heap on entry and
returns the heap on exit next to the Go result pair, so that what the function
writes (the copy of an allocation and the clearing of its `Job` field) is
visible in the model.
-/

set_option linter.dupNamespace false

namespace NomadState

/-! ## Constants of `events.go` -/

/-- The Go type `structs.Topic` is a string type. -/
abbrev Topic := String

def TopicDeployment : Topic := "Deployment"
def TopicEval : Topic := "Eval"
def TopicAlloc : Topic := "Alloc"
def TopicJob : Topic := "Job"
def TopicNode : Topic := "Node"

def TypeNodeRegistration : String := "NodeRegistration"
def TypeNodeDeregistration : String := "NodeDeregistration"
def TypeNodeEligibilityUpdate : String := "NodeEligibility"
def TypeNodeDrain : String := "NodeDrain"
def TypeNodeEvent : String := "NodeEvent"
def TypeDeploymentUpdate : String := "DeploymentStatusUpdate"
def TypeDeploymentPromotion : String := "DeploymentPromotion"
def TypeDeploymentAllocHealth : String := "DeploymentAllocHealth"
def TypeAllocCreated : String := "AllocCreated"
def TypeAllocUpdated : String := "AllocUpdated"
def TypeAllocUpdateDesiredStatus : String := "AllocUpdateDesiredStatus"
def TypeEvalUpdated : String := "EvalUpdated"
def TypeJobRegistered : String := "JobRegistered"
def TypeJobDeregistered : String := "JobDeregistered"
def TypeJobBatchDeregistered : String := "JobBatchDeregistered"
def TypePlanResult : String := "PlanResult"

/-! ## Types of package `structs` used by `events.go` -/

/-- Modelled from the spec: the write-type tags `structs.MessageType`, whose
constants are declared outside `events.go`.  The sixteen tags named in the
switch of `GenericEventsFromChanges` keep their Go names;
`NodeDeregisterRequestType` is the "node deregistration" tag of the
enumeration of spec section 4.1; `Other` stands for every remaining value of
the Go type. -/
inductive MessageType where
  | NodeRegisterRequestType
  | NodeDeregisterRequestType
  | UpsertNodeEventsType
  | EvalUpdateRequestType
  | AllocClientUpdateRequestType
  | JobRegisterRequestType
  | AllocUpdateRequestType
  | NodeUpdateStatusRequestType
  | JobDeregisterRequestType
  | JobBatchDeregisterRequestType
  | AllocUpdateDesiredTransitionRequestType
  | NodeUpdateEligibilityRequestType
  | BatchNodeUpdateDrainRequestType
  | DeploymentStatusUpdateRequestType
  | DeploymentPromoteRequestType
  | DeploymentAllocHealthRequestType
  | ApplyPlanResultsRequestType
  | Other (code : Nat)
  deriving DecidableEq, Repr

/-- A heap address; Go's `nil` pointer is `none` of `Option Ptr`. -/
abbrev Ptr := Nat

/-- Modelled from the spec: `structs.Job`, reduced to the fields `events.go`
reads; `Rest` stands for all the other fields. -/
structure Job where
  ID : String
  Namespace : String
  Rest : String
  deriving DecidableEq, Repr, Inhabited

/-- Modelled from the spec: `structs.Evaluation`, reduced to the fields
`events.go` reads; `Rest` stands for all the other fields. -/
structure Evaluation where
  ID : String
  Namespace : String
  Rest : String
  deriving DecidableEq, Repr, Inhabited

/-- Modelled from the spec: `structs.Allocation`, reduced to the fields
`events.go` reads or writes; `Job` is the embedded job reference (`none` is
Go's `nil`), held by value; `Rest` stands for all the other fields. -/
structure Allocation where
  ID : String
  Namespace : String
  JobID : String
  DeploymentID : String
  Job : Option Job
  Rest : String
  deriving DecidableEq, Repr, Inhabited

/-- Modelled from the spec: `structs.Node`, reduced to the fields `events.go`
reads; `Rest` stands for all the other fields. -/
structure Node where
  ID : String
  Rest : String
  deriving DecidableEq, Repr, Inhabited

/-- Modelled from the spec: `structs.Deployment`, reduced to the fields
`events.go` reads; `Rest` stands for all the other fields. -/
structure Deployment where
  ID : String
  Namespace : String
  JobID : String
  Rest : String
  deriving DecidableEq, Repr, Inhabited

/-- A heap cell: one object of the five record kinds, or an object of any
other Go type (`Other`, with a tag naming that type). -/
inductive Object where
  | Evaluation (e : Evaluation)
  | Allocation (a : Allocation)
  | Job (j : Job)
  | Node (n : Node)
  | Deployment (d : Deployment)
  | Other (tag : String)
  deriving DecidableEq, Repr

/-- The heap: cell `p` is the object the pointer `p` points to. -/
abbrev Heap := List Object

/-- Modelled from the spec: one row-level mutation, the `memdb.Change` of the
storage engine, which is declared outside `events.go`: the record kind
(`Table`), the after-image (an interface value, `none` is Go's `nil`) and the
deleted flag that `Deleted()` reports. -/
structure Change where
  Table : String
  After : Option Ptr
  deleted : Bool
  deriving DecidableEq, Repr

/-- The method `change.Deleted()`. -/
def Change.Deleted (change : Change) : Bool := change.deleted

/-- Modelled from the spec: the change set `Changes` (declared in another file
of package `state`): the monotonic index, the ordered changes and the
write-type tag. -/
structure Changes where
  Index : Nat
  Changes : List Change
  MsgType : MessageType
  deriving DecidableEq, Repr

/-! ## Payloads and events -/

structure NodeDrainAllocDetails where
  ID : String
  Migrate : Option Ptr
  deriving DecidableEq, Repr

structure JobDrainDetails where
  Type_ : String
  AllocDetails : List (String × NodeDrainAllocDetails)
  deriving DecidableEq, Repr

/-- The payload of an event: one of the payload structs of `events.go`, each
holding the pointer placed in it. -/
inductive Payload where
  | JobEvent (Job : Ptr)
  | EvalEvent (Eval : Ptr)
  | AllocEvent (Alloc : Ptr)
  | DeploymentEvent (Deployment : Ptr)
  | NodeEvent (Node : Ptr)
  | NodeDrainEvent (Node : Ptr) (JobAllocs : List (String × JobDrainDetails))
  deriving DecidableEq, Repr

/-- Modelled from the spec: `structs.Event` (spec section 6).  A field the
source leaves out of the struct literal has Go's zero value: the empty string
for `Namespace`, the nil slice (here `[]`) for `FilterKeys`. -/
structure Event where
  Topic : Topic
  Type_ : String
  Key : String
  Namespace : String
  FilterKeys : List String
  Index : Nat
  Payload : Payload
  deriving DecidableEq, Repr

/-- Modelled from the spec: `structs.Events`, the batch (spec section 3). -/
structure Events where
  Index : Nat
  Events : List Event
  deriving DecidableEq, Repr

/-- The Go result pair `(*structs.Events, error)`; `none` is `nil`. -/
structure Result where
  events : Option Events
  err : Option String
  deriving DecidableEq, Repr

/-! ## Heap operations -/

/-- The type assertion `change.After.(*structs.Evaluation)`: the pointer when
the interface holds a pointer to an evaluation, `none` when `ok` is false. -/
def assertEvaluation (h : Heap) (after : Option Ptr) : Option Ptr :=
  match after with
  | none => none
  | some p =>
    match h[p]? with
    | some (Object.Evaluation _) => some p
    | _ => none

/-- The type assertion `change.After.(*structs.Allocation)`. -/
def assertAllocation (h : Heap) (after : Option Ptr) : Option Ptr :=
  match after with
  | none => none
  | some p =>
    match h[p]? with
    | some (Object.Allocation _) => some p
    | _ => none

/-- The type assertion `change.After.(*structs.Job)`. -/
def assertJob (h : Heap) (after : Option Ptr) : Option Ptr :=
  match after with
  | none => none
  | some p =>
    match h[p]? with
    | some (Object.Job _) => some p
    | _ => none

/-- The type assertion `change.After.(*structs.Node)`. -/
def assertNode (h : Heap) (after : Option Ptr) : Option Ptr :=
  match after with
  | none => none
  | some p =>
    match h[p]? with
    | some (Object.Node _) => some p
    | _ => none

/-- The type assertion `change.After.(*structs.Deployment)`. -/
def assertDeployment (h : Heap) (after : Option Ptr) : Option Ptr :=
  match after with
  | none => none
  | some p =>
    match h[p]? with
    | some (Object.Deployment _) => some p
    | _ => none

/-- Dereference of a `*structs.Evaluation` (only used on pointers that passed
the type assertion). -/
def derefEvaluation (h : Heap) (p : Ptr) : Evaluation :=
  match h[p]? with
  | some (Object.Evaluation e) => e
  | _ => default

/-- Dereference of a `*structs.Allocation`. -/
def derefAllocation (h : Heap) (p : Ptr) : Allocation :=
  match h[p]? with
  | some (Object.Allocation a) => a
  | _ => default

/-- Dereference of a `*structs.Job`. -/
def derefJob (h : Heap) (p : Ptr) : Job :=
  match h[p]? with
  | some (Object.Job j) => j
  | _ => default

/-- Dereference of a `*structs.Node`. -/
def derefNode (h : Heap) (p : Ptr) : Node :=
  match h[p]? with
  | some (Object.Node n) => n
  | _ => default

/-- Dereference of a `*structs.Deployment`. -/
def derefDeployment (h : Heap) (p : Ptr) : Deployment :=
  match h[p]? with
  | some (Object.Deployment d) => d
  | _ => default

/-- Modelled from the spec: `(*structs.Allocation).Copy()`, declared outside
`events.go`; a deep copy (spec section 4.2): a fresh cell holding the same
contents, returned with its address. -/
def Allocation.Copy (h : Heap) (after : Ptr) : Ptr × Heap :=
  (h.length, h ++ [Object.Allocation (derefAllocation h after)])

/-- The assignment `alloc.Job = nil`: a write to the cell `alloc` points to. -/
def setJobNil (h : Heap) (alloc : Ptr) : Heap :=
  match h[alloc]? with
  | some (Object.Allocation a) => h.set alloc (Object.Allocation { a with Job := none })
  | _ => h

/-! ## `GenericEventsFromChanges` -/

/-- The `switch changes.MsgType` at the head of `GenericEventsFromChanges`:
the value given to `eventType`, or `none` for the `default` branch (which
returns `nil, nil`). -/
def eventTypeOf : MessageType → Option String
  | MessageType.NodeRegisterRequestType => some TypeNodeRegistration
  | MessageType.UpsertNodeEventsType => some TypeNodeEvent
  | MessageType.EvalUpdateRequestType => some TypeEvalUpdated
  | MessageType.AllocClientUpdateRequestType => some TypeAllocUpdated
  | MessageType.JobRegisterRequestType => some TypeJobRegistered
  | MessageType.AllocUpdateRequestType => some TypeAllocUpdated
  | MessageType.NodeUpdateStatusRequestType => some TypeNodeEvent
  | MessageType.JobDeregisterRequestType => some TypeJobDeregistered
  | MessageType.JobBatchDeregisterRequestType => some TypeJobBatchDeregistered
  | MessageType.AllocUpdateDesiredTransitionRequestType => some TypeAllocUpdateDesiredStatus
  | MessageType.NodeUpdateEligibilityRequestType => some TypeNodeDrain
  | MessageType.BatchNodeUpdateDrainRequestType => some TypeNodeDrain
  | MessageType.DeploymentStatusUpdateRequestType => some TypeDeploymentUpdate
  | MessageType.DeploymentPromoteRequestType => some TypeDeploymentPromotion
  | MessageType.DeploymentAllocHealthRequestType => some TypeDeploymentAllocHealth
  | MessageType.ApplyPlanResultsRequestType => some TypePlanResult
  | _ => none

/-- What one pass through the body of the `for` loop does: either control
reaches the end of the body (`next`, with the heap and the `events` slice as
they are then), or the function returns (`ret`, with the result pair and the
heap at that point). -/
inductive Step where
  | next (h : Heap) (events : List Event)
  | ret (r : Result) (h : Heap)
  deriving DecidableEq, Repr

/-- The heap at the point a pass through the loop body ends. -/
def Step.heap : Step → Heap
  | Step.next h _ => h
  | Step.ret _ h => h

/-- The body of `for _, change := range changes.Changes`, the
`switch change.Table` with its five cases and no default. -/
def loopBody (eventType : String) (index : Nat) (change : Change) (h : Heap)
    (events : List Event) : Step :=
  if change.Table = "evals" then
    if change.Deleted then Step.ret ⟨none, none⟩ h
    else
      match assertEvaluation h change.After with
      | none => Step.ret ⟨none, some "transaction change was not an Evaluation"⟩ h
      | some after =>
        let event : Event :=
          { Topic := TopicEval
            Type_ := eventType
            Index := index
            Key := (derefEvaluation h after).ID
            Namespace := (derefEvaluation h after).Namespace
            FilterKeys := []
            Payload := Payload.EvalEvent after }
        Step.next h (events ++ [event])
  else if change.Table = "allocs" then
    if change.Deleted then Step.ret ⟨none, none⟩ h
    else
      match assertAllocation h change.After with
      | none => Step.ret ⟨none, some "transaction change was not an Allocation"⟩ h
      | some after =>
        let (alloc, h1) := Allocation.Copy h after
        let filterKeys : List String :=
          [(derefAllocation h1 alloc).JobID, (derefAllocation h1 alloc).DeploymentID]
        let h2 := setJobNil h1 alloc
        let event : Event :=
          { Topic := TopicAlloc
            Type_ := eventType
            Index := index
            Key := (derefAllocation h2 after).ID
            FilterKeys := filterKeys
            Namespace := (derefAllocation h2 after).Namespace
            Payload := Payload.AllocEvent alloc }
        Step.next h2 (events ++ [event])
  else if change.Table = "jobs" then
    if change.Deleted then Step.ret ⟨none, none⟩ h
    else
      match assertJob h change.After with
      | none => Step.ret ⟨none, some "transaction change was not an Allocation"⟩ h
      | some after =>
        let event : Event :=
          { Topic := TopicJob
            Type_ := eventType
            Index := index
            Key := (derefJob h after).ID
            Namespace := (derefJob h after).Namespace
            FilterKeys := []
            Payload := Payload.JobEvent after }
        Step.next h (events ++ [event])
  else if change.Table = "nodes" then
    if change.Deleted then Step.ret ⟨none, none⟩ h
    else
      match assertNode h change.After with
      | none => Step.ret ⟨none, some "transaction change was not a Node"⟩ h
      | some after =>
        let event : Event :=
          { Topic := TopicNode
            Type_ := eventType
            Index := index
            Key := (derefNode h after).ID
            Namespace := ""
            FilterKeys := []
            Payload := Payload.NodeEvent after }
        Step.next h (events ++ [event])
  else if change.Table = "deployment" then
    if change.Deleted then Step.ret ⟨none, none⟩ h
    else
      match assertDeployment h change.After with
      | none => Step.ret ⟨none, some "transaction change was not a Node"⟩ h
      | some after =>
        let event : Event :=
          { Topic := TopicDeployment
            Type_ := eventType
            Index := index
            Key := (derefDeployment h after).ID
            Namespace := (derefDeployment h after).Namespace
            FilterKeys := [(derefDeployment h after).JobID]
            Payload := Payload.DeploymentEvent after }
        Step.next h (events ++ [event])
  else Step.next h events

/-- The loop `for _, change := range changes.Changes`: the body is run on the
changes in order until it returns or the changes are exhausted. -/
def forRange (eventType : String) (index : Nat) :
    List Change → Heap → List Event → Step
  | [], h, events => Step.next h events
  | change :: rest, h, events =>
    match loopBody eventType index change h events with
    | Step.ret r h1 => Step.ret r h1
    | Step.next h1 events1 => forRange eventType index rest h1 events1

/-- The function `GenericEventsFromChanges(tx, changes)`, started on the heap
`h`: the Go result pair and the heap on return.  The parameter `tx` is not
used by the source and is left out. -/
def GenericEventsFromChanges (h : Heap) (changes : Changes) : Result × Heap :=
  match eventTypeOf changes.MsgType with
  | none => (⟨none, none⟩, h)
  | some eventType =>
    match forRange eventType changes.Index changes.Changes h [] with
    | Step.ret r h1 => (r, h1)
    | Step.next h1 events => (⟨some { Index := changes.Index, Events := events }, none⟩, h1)

/-! ## Vocabulary of the specification -/

/-- The five record kinds (tables) the translator understands. -/
def knownTable (t : String) : Bool :=
  t = "evals" || t = "allocs" || t = "jobs" || t = "nodes" || t = "deployment"

/-- The after-image of `c` is present and of the kind the table of `c`
expects: an evaluation for `evals`, an allocation for `allocs`, a job for
`jobs`, a node for `nodes`, a deployment for `deployment`. -/
def wellTyped (h : Heap) (c : Change) : Bool :=
  match c.After with
  | none => false
  | some p =>
    match h[p]? with
    | some (Object.Evaluation _) => c.Table = "evals"
    | some (Object.Allocation _) => c.Table = "allocs"
    | some (Object.Job _) => c.Table = "jobs"
    | some (Object.Node _) => c.Table = "nodes"
    | some (Object.Deployment _) => c.Table = "deployment"
    | _ => false

/-- The record ID of the after-image of `c`, when it is one of the five
record kinds. -/
def recordID (h : Heap) (c : Change) : Option String :=
  match c.After with
  | none => none
  | some p =>
    match h[p]? with
    | some (Object.Evaluation e) => some e.ID
    | some (Object.Allocation a) => some a.ID
    | some (Object.Job j) => some j.ID
    | some (Object.Node n) => some n.ID
    | some (Object.Deployment d) => some d.ID
    | _ => none

/-- The after-image of `c`, when there is one, points into the heap `h`: the
caller hands over no dangling pointer. -/
def validChange (h : Heap) (c : Change) : Bool :=
  match c.After with
  | none => true
  | some p => decide (p < h.length)

/-- Every after-image of the change set points into the heap `h`. -/
def validInput (h : Heap) (changes : Changes) : Bool :=
  changes.Changes.all (validChange h)

/-- The error message of a type mismatch in the given table. -/
def mismatchMessage (table : String) : String :=
  if table = "evals" then "transaction change was not an Evaluation"
  else if table = "allocs" then "transaction change was not an Allocation"
  else if table = "jobs" then "transaction change was not an Allocation"
  else "transaction change was not a Node"


/-- A change that stops the translation: it is in one of the five tables and
is deleted or has an after-image of the wrong kind. -/
def offending (h : Heap) (c : Change) : Bool :=
  knownTable c.Table && (c.Deleted || !wellTyped h c)


/-- The event that the source builds for the change `c`, as read off the
struct literals of the five cases: `h` is the heap the after-image is read
in, `hout` the heap in which the payload of an allocation event is read. -/
def EventOf (eventType : String) (index : Nat) (h hout : Heap) (c : Change) (e : Event) :
    Prop :=
  ∃ p, c.After = some p ∧
    ((c.Table = "evals" ∧ ∃ x, h[p]? = some (Object.Evaluation x) ∧
        e = { Topic := TopicEval, Type_ := eventType, Index := index, Key := x.ID,
              Namespace := x.Namespace, FilterKeys := [], Payload := Payload.EvalEvent p }) ∨
     (c.Table = "allocs" ∧ ∃ x q, h[p]? = some (Object.Allocation x) ∧ h.length ≤ q ∧
        hout[q]? = some (Object.Allocation { x with Job := none }) ∧
        e = { Topic := TopicAlloc, Type_ := eventType, Index := index, Key := x.ID,
              Namespace := x.Namespace, FilterKeys := [x.JobID, x.DeploymentID],
              Payload := Payload.AllocEvent q }) ∨
     (c.Table = "jobs" ∧ ∃ x, h[p]? = some (Object.Job x) ∧
        e = { Topic := TopicJob, Type_ := eventType, Index := index, Key := x.ID,
              Namespace := x.Namespace, FilterKeys := [], Payload := Payload.JobEvent p }) ∨
     (c.Table = "nodes" ∧ ∃ x, h[p]? = some (Object.Node x) ∧
        e = { Topic := TopicNode, Type_ := eventType, Index := index, Key := x.ID,
              Namespace := "", FilterKeys := [], Payload := Payload.NodeEvent p }) ∨
     (c.Table = "deployment" ∧ ∃ x, h[p]? = some (Object.Deployment x) ∧
        e = { Topic := TopicDeployment, Type_ := eventType, Index := index, Key := x.ID,
              Namespace := x.Namespace, FilterKeys := [x.JobID],
              Payload := Payload.DeploymentEvent p }))


/-- The write-type tags that have a case in the switch of
`GenericEventsFromChanges`, in the order of the source. -/
def handledTags : List MessageType :=
  [MessageType.NodeRegisterRequestType, MessageType.UpsertNodeEventsType,
   MessageType.EvalUpdateRequestType, MessageType.AllocClientUpdateRequestType,
   MessageType.JobRegisterRequestType, MessageType.AllocUpdateRequestType,
   MessageType.NodeUpdateStatusRequestType, MessageType.JobDeregisterRequestType,
   MessageType.JobBatchDeregisterRequestType,
   MessageType.AllocUpdateDesiredTransitionRequestType,
   MessageType.NodeUpdateEligibilityRequestType, MessageType.BatchNodeUpdateDrainRequestType,
   MessageType.DeploymentStatusUpdateRequestType, MessageType.DeploymentPromoteRequestType,
   MessageType.DeploymentAllocHealthRequestType, MessageType.ApplyPlanResultsRequestType]

/-- The closed enumeration of write-type tags as spec section 4.1 lists it:
node registration, node deregistration, node eligibility update, node drain
batch update, node status update, eval update, alloc client update, alloc
update, alloc desired-transition update, job register, job deregister, job
batch deregister, deployment status update, deployment promote, deployment
alloc-health update, plan-result apply. -/
def specEnumeration : List MessageType :=
  [MessageType.NodeRegisterRequestType, MessageType.NodeDeregisterRequestType,
   MessageType.NodeUpdateEligibilityRequestType, MessageType.BatchNodeUpdateDrainRequestType,
   MessageType.NodeUpdateStatusRequestType, MessageType.EvalUpdateRequestType,
   MessageType.AllocClientUpdateRequestType, MessageType.AllocUpdateRequestType,
   MessageType.AllocUpdateDesiredTransitionRequestType, MessageType.JobRegisterRequestType,
   MessageType.JobDeregisterRequestType, MessageType.JobBatchDeregisterRequestType,
   MessageType.DeploymentStatusUpdateRequestType, MessageType.DeploymentPromoteRequestType,
   MessageType.DeploymentAllocHealthRequestType, MessageType.ApplyPlanResultsRequestType]

/-- The topic of `e` and the variant of its payload are one of the five pairs
(Eval, EvalEvent), (Alloc, AllocEvent), (Job, JobEvent), (Node, NodeEvent),
(Deployment, DeploymentEvent); a `NodeDrainEvent` payload is in no pair. -/
def topicPayloadPaired (e : Event) : Bool :=
  match e.Payload with
  | Payload.EvalEvent _ => e.Topic = TopicEval
  | Payload.AllocEvent _ => e.Topic = TopicAlloc
  | Payload.JobEvent _ => e.Topic = TopicJob
  | Payload.NodeEvent _ => e.Topic = TopicNode
  | Payload.DeploymentEvent _ => e.Topic = TopicDeployment
  | Payload.NodeDrainEvent _ _ => false

/-- The static table of the write-type classifier, written out label by label:
every tag that is not listed is unrecognized. -/
def classifierTable : List (MessageType × String) :=
  [(MessageType.NodeRegisterRequestType, "NodeRegistration"),
   (MessageType.UpsertNodeEventsType, "NodeEvent"),
   (MessageType.NodeUpdateStatusRequestType, "NodeEvent"),
   (MessageType.EvalUpdateRequestType, "EvalUpdated"),
   (MessageType.AllocClientUpdateRequestType, "AllocUpdated"),
   (MessageType.AllocUpdateRequestType, "AllocUpdated"),
   (MessageType.AllocUpdateDesiredTransitionRequestType, "AllocUpdateDesiredStatus"),
   (MessageType.JobRegisterRequestType, "JobRegistered"),
   (MessageType.JobDeregisterRequestType, "JobDeregistered"),
   (MessageType.JobBatchDeregisterRequestType, "JobBatchDeregistered"),
   (MessageType.NodeUpdateEligibilityRequestType, "NodeDrain"),
   (MessageType.BatchNodeUpdateDrainRequestType, "NodeDrain"),
   (MessageType.DeploymentStatusUpdateRequestType, "DeploymentStatusUpdate"),
   (MessageType.DeploymentPromoteRequestType, "DeploymentPromotion"),
   (MessageType.DeploymentAllocHealthRequestType, "DeploymentAllocHealth"),
   (MessageType.ApplyPlanResultsRequestType, "PlanResult")]

/-- The label the table gives to a tag, `none` when the tag is not listed. -/
def tableLabel (t : MessageType) : Option String :=
  (classifierTable.find? (fun row => decide (row.1 = t))).map (fun row => row.2)

/-! ## Sample data -/

/-- A heap holding one object of each record kind; the allocation has its
embedded job set. -/
def sampleHeap : Heap :=
  [Object.Job ⟨"web", "default", "job fields"⟩,
   Object.Allocation
     ⟨"a1", "default", "web", "", some ⟨"web", "default", "job fields"⟩, "alloc fields"⟩,
   Object.Evaluation ⟨"e1", "default", "eval fields"⟩,
   Object.Node ⟨"n1", "node fields"⟩,
   Object.Deployment ⟨"d1", "default", "web", "deployment fields"⟩]

/-- A non-deleted change of table `jobs` whose after-image is the job of
`sampleHeap`. -/
def jobChange : Change := ⟨"jobs", some 0, false⟩

/-- A non-deleted change of table `allocs` whose after-image is the allocation
of `sampleHeap`. -/
def allocChange : Change := ⟨"allocs", some 1, false⟩

/-- A non-deleted change of table `evals` whose after-image is the evaluation
of `sampleHeap`. -/
def evalChange : Change := ⟨"evals", some 2, false⟩

/-- A non-deleted change of table `nodes` whose after-image is the node of
`sampleHeap`. -/
def nodeChange : Change := ⟨"nodes", some 3, false⟩

/-- A change set with a job, an allocation and an evaluation change. -/
def sampleChanges : Changes :=
  ⟨42, [jobChange, allocChange, evalChange], MessageType.AllocUpdateRequestType⟩

/-- The batch that `sampleChanges` is translated to on `sampleHeap`; the
payload of the allocation event is the fresh cell 5. -/
def sampleBatch : Events :=
  ⟨42,
    [⟨TopicJob, TypeAllocUpdated, "web", "default", [], 42, Payload.JobEvent 0⟩,
     ⟨TopicAlloc, TypeAllocUpdated, "a1", "default", ["web", ""], 42, Payload.AllocEvent 5⟩,
     ⟨TopicEval, TypeAllocUpdated, "e1", "default", [], 42, Payload.EvalEvent 2⟩]⟩

/-- A non-deleted change of table `deployment` whose after-image is the
deployment of `sampleHeap`. -/
def deploymentChange : Change := ⟨"deployment", some 4, false⟩

/-- A non-deleted change of a table outside the five. -/
def summaryChange : Change := ⟨"job_summary", some 0, false⟩

/-- A deleted change of a table outside the five. -/
def deletedSummaryChange : Change := ⟨"job_summary", none, true⟩

/-- A change set with one change of each of the five tables and changes of
another table in between. -/
def allKindsChanges : Changes :=
  ⟨7, [evalChange, summaryChange, allocChange, jobChange, deletedSummaryChange, nodeChange,
       deploymentChange], MessageType.JobRegisterRequestType⟩

/-- The batch that `allKindsChanges` is translated to on `sampleHeap`. -/
def allKindsBatch : Events :=
  ⟨7,
    [⟨TopicEval, TypeJobRegistered, "e1", "default", [], 7, Payload.EvalEvent 2⟩,
     ⟨TopicAlloc, TypeJobRegistered, "a1", "default", ["web", ""], 7, Payload.AllocEvent 5⟩,
     ⟨TopicJob, TypeJobRegistered, "web", "default", [], 7, Payload.JobEvent 0⟩,
     ⟨TopicNode, TypeJobRegistered, "n1", "", [], 7, Payload.NodeEvent 3⟩,
     ⟨TopicDeployment, TypeJobRegistered, "d1", "default", ["web"], 7,
       Payload.DeploymentEvent 4⟩]⟩

/-- A deleted change of table `jobs`: no after-image. -/
def deletedJobChange : Change := ⟨"jobs", none, true⟩

/-- A non-deleted change of table `jobs` whose after-image is not a job but
the evaluation of `sampleHeap`. -/
def mismatchedJobChange : Change := ⟨"jobs", some 2, false⟩

/-! ## The heap -/

theorem heap_get_append (h ext : Heap) (p : Ptr) (hp : p < h.length) :
    (h ++ ext)[p]? = h[p]? := List.getElem?_append_left hp

theorem heap_get_fresh (h : Heap) (o : Object) : (h ++ [o])[h.length]? = some o := by
  simp

theorem heap_lt_of_get {h : Heap} {p : Ptr} {o : Object} (hp : h[p]? = some o) :
    p < h.length := by
  by_contra hc
  have : h[p]? = none := List.getElem?_eq_none (Nat.le_of_not_lt hc)
  rw [this] at hp
  cases hp

theorem setJobNil_fresh (h : Heap) (a : Allocation) :
    setJobNil (h ++ [Object.Allocation a]) h.length
      = h ++ [Object.Allocation { a with Job := none }] := by
  unfold setJobNil
  rw [heap_get_fresh]
  simp

theorem derefAllocation_of_get {h : Heap} {p : Ptr} {a : Allocation}
    (hp : h[p]? = some (Object.Allocation a)) : derefAllocation h p = a := by
  unfold derefAllocation; rw [hp]

/-! ## The loop body -/

theorem loopBody_skip (ty : String) (idx : Nat) (c : Change) (g : Heap) (evs : List Event)
    (hk : knownTable c.Table = false) : loopBody ty idx c g evs = Step.next g evs := by
  simp [knownTable] at hk
  obtain ⟨⟨⟨⟨h1, h2⟩, h3⟩, h4⟩, h5⟩ := hk
  simp [loopBody, h1, h2, h3, h4, h5]

theorem loopBody_deleted (ty : String) (idx : Nat) (c : Change) (g : Heap) (evs : List Event)
    (hk : knownTable c.Table = true) (hd : c.Deleted = true) :
    loopBody ty idx c g evs = Step.ret ⟨none, none⟩ g := by
  simp [knownTable] at hk
  unfold loopBody
  simp only [hd, if_true]
  rcases hk with (((h1 | h1) | h1) | h1) | h1 <;> simp [h1]

theorem wellTyped_known {h : Heap} {c : Change} (hw : wellTyped h c = true) :
    knownTable c.Table = true := by
  unfold wellTyped at hw
  unfold knownTable
  cases hA : c.After with
  | none => simp [hA] at hw
  | some p =>
    simp only [hA] at hw
    cases hO : h[p]? with
    | none => simp [hO] at hw
    | some o =>
      cases o <;> simp [hO] at hw <;> simp [hw]

theorem loopBody_mismatch (ty : String) (idx : Nat) (c : Change) (g : Heap) (evs : List Event)
    (hk : knownTable c.Table = true) (hd : c.Deleted = false) (hw : wellTyped g c = false) :
    loopBody ty idx c g evs = Step.ret ⟨none, some (mismatchMessage c.Table)⟩ g := by
  simp [knownTable] at hk
  unfold loopBody mismatchMessage
  simp only [hd]
  unfold wellTyped at hw
  cases hA : c.After with
  | none =>
    rcases hk with (((h1 | h1) | h1) | h1) | h1 <;>
      simp [h1, assertEvaluation, assertAllocation, assertJob, assertNode, assertDeployment]
  | some p =>
    simp only [hA] at hw
    cases hO : g[p]? with
    | none =>
      rcases hk with (((h1 | h1) | h1) | h1) | h1 <;>
        simp [h1, hO, assertEvaluation, assertAllocation, assertJob, assertNode,
          assertDeployment]
    | some o =>
      rcases hk with (((h1 | h1) | h1) | h1) | h1 <;> cases o <;>
        simp [h1, hO] at hw <;>
        simp [h1, hO, assertEvaluation, assertAllocation, assertJob, assertNode,
          assertDeployment]

theorem loopBody_ok (ty : String) (idx : Nat) (c : Change) (g : Heap) (evs : List Event)
    (hd : c.Deleted = false) (hw : wellTyped g c = true) :
    ∃ e ext, loopBody ty idx c g evs = Step.next (g ++ ext) (evs ++ [e]) ∧
      EventOf ty idx g (g ++ ext) c e := by
  unfold wellTyped at hw
  cases hA : c.After with
  | none => simp [hA] at hw
  | some p =>
    simp only [hA] at hw
    cases hO : g[p]? with
    | none => simp [hO] at hw
    | some o =>
      cases o with
      | Evaluation x =>
        simp [hO] at hw
        refine ⟨_, [], ?_, p, hA, Or.inl ⟨hw, x, ?_, rfl⟩⟩
        · simp [loopBody, hw, hd, hA, assertEvaluation, derefEvaluation, hO]
        · simpa using hO
      | Allocation x =>
        simp [hO] at hw
        refine ⟨_, [Object.Allocation { x with Job := none }], ?_, p, hA,
          Or.inr (Or.inl ⟨hw, x, g.length, hO, le_refl _, ?_, rfl⟩)⟩
        · have hp : p < g.length := heap_lt_of_get hO
          have h1 : derefAllocation g p = x := derefAllocation_of_get hO
          have h2 : derefAllocation (g ++ [Object.Allocation x]) g.length = x :=
            derefAllocation_of_get (heap_get_fresh g _)
          have h3 : derefAllocation (g ++ [Object.Allocation { x with Job := none }]) p = x :=
            derefAllocation_of_get (by rw [heap_get_append _ _ _ hp]; exact hO)
          simp [loopBody, hw, hd, hA, assertAllocation, hO, Allocation.Copy, h1,
            setJobNil_fresh, h2, h3]
        · simp
      | Job x =>
        simp [hO] at hw
        refine ⟨_, [], ?_, p, hA, Or.inr (Or.inr (Or.inl ⟨hw, x, ?_, rfl⟩))⟩
        · simp [loopBody, hw, hd, hA, assertJob, derefJob, hO]
        · simpa using hO
      | Node x =>
        simp [hO] at hw
        refine ⟨_, [], ?_, p, hA, Or.inr (Or.inr (Or.inr (Or.inl ⟨hw, x, ?_, rfl⟩)))⟩
        · simp [loopBody, hw, hd, hA, assertNode, derefNode, hO]
        · simpa using hO
      | Deployment x =>
        simp [hO] at hw
        refine ⟨_, [], ?_, p, hA, Or.inr (Or.inr (Or.inr (Or.inr ⟨hw, x, ?_, rfl⟩)))⟩
        · simp [loopBody, hw, hd, hA, assertDeployment, derefDeployment, hO]
        · simpa using hO
      | Other t => simp [hO] at hw

/-! ## The loop -/

theorem wellTyped_valid {h : Heap} {c : Change} (hw : wellTyped h c = true) :
    validChange h c = true := by
  unfold wellTyped at hw
  unfold validChange
  cases hA : c.After with
  | none => rfl
  | some p =>
    simp only [hA] at hw
    cases hO : h[p]? with
    | none => simp [hO] at hw
    | some o => simpa using heap_lt_of_get hO

theorem wellTyped_ext {h : Heap} {c : Change} (ext : Heap) (hv : validChange h c = true) :
    wellTyped (h ++ ext) c = wellTyped h c := by
  unfold wellTyped
  unfold validChange at hv
  cases hA : c.After with
  | none => rfl
  | some p =>
    simp only [hA] at hv
    have hp : p < h.length := by simpa using hv
    simp only [heap_get_append h ext p hp]

theorem EventOf_base {ty : String} {idx : Nat} {h ext hout : Heap} {c : Change} {e : Event}
    (hv : validChange h c = true) (he : EventOf ty idx (h ++ ext) hout c e) :
    EventOf ty idx h hout c e := by
  obtain ⟨p, hA, hcase⟩ := he
  unfold validChange at hv
  simp only [hA] at hv
  have hp : p < h.length := by simpa using hv
  rw [heap_get_append h ext p hp] at hcase
  refine ⟨p, hA, ?_⟩
  rcases hcase with h1 | h1 | h1 | h1 | h1
  · exact Or.inl h1
  · obtain ⟨hT, x, q, hx, hq, ho, hE⟩ := h1
    refine Or.inr (Or.inl ⟨hT, x, q, hx, ?_, ho, hE⟩)
    rw [List.length_append] at hq
    omega
  · exact Or.inr (Or.inr (Or.inl h1))
  · exact Or.inr (Or.inr (Or.inr (Or.inl h1)))
  · exact Or.inr (Or.inr (Or.inr (Or.inr h1)))

theorem EventOf_mono {ty : String} {idx : Nat} {h hout : Heap} {c : Change} {e : Event}
    (ext : Heap) (he : EventOf ty idx h hout c e) : EventOf ty idx h (hout ++ ext) c e := by
  obtain ⟨p, hA, hcase⟩ := he
  refine ⟨p, hA, ?_⟩
  rcases hcase with h1 | h1 | h1 | h1 | h1
  · exact Or.inl h1
  · obtain ⟨hT, x, q, hx, hq, ho, hE⟩ := h1
    refine Or.inr (Or.inl ⟨hT, x, q, hx, hq, ?_, hE⟩)
    rw [heap_get_append hout ext q (heap_lt_of_get ho)]
    exact ho
  · exact Or.inr (Or.inr (Or.inl h1))
  · exact Or.inr (Or.inr (Or.inr (Or.inl h1)))
  · exact Or.inr (Or.inr (Or.inr (Or.inr h1)))

/-- The loop, characterised: it stops at the first offending change (with
`nil, nil` when that change is deleted, with the mismatch error otherwise),
and when there is none it appends one event per change of the five tables, in
order.  The heap only grows. -/
theorem forRange_spec (ty : String) (idx : Nat) (h : Heap) :
    ∀ (cs : List Change) (ext0 : Heap) (evs : List Event),
      (∀ c ∈ cs, knownTable c.Table = true → c.Deleted = false → wellTyped h c = false →
        validChange h c = true) →
      ∃ ext : Heap,
        match cs.find? (offending h) with
        | some c =>
          forRange ty idx cs (h ++ ext0) evs
            = Step.ret ⟨none, if c.Deleted = true then none else some (mismatchMessage c.Table)⟩
                (h ++ ext0 ++ ext)
        | none =>
          ∃ new : List Event,
            forRange ty idx cs (h ++ ext0) evs = Step.next (h ++ ext0 ++ ext) (evs ++ new) ∧
            List.Forall₂ (EventOf ty idx h (h ++ ext0 ++ ext))
              (cs.filter (fun c => knownTable c.Table)) new := by
  intro cs
  induction cs with
  | nil =>
    intro ext0 evs _
    exact ⟨[], [], by simp [forRange], by simp⟩
  | cons c cs ih =>
    intro ext0 evs hv
    have hvcs : ∀ d ∈ cs, knownTable d.Table = true → d.Deleted = false →
        wellTyped h d = false → validChange h d = true :=
      fun d hd => hv d (List.mem_cons_of_mem _ hd)
    cases hk : knownTable c.Table with
    | false =>
      have hoff : offending h c = false := by simp [offending, hk]
      obtain ⟨ext, hih⟩ := ih ext0 evs hvcs
      refine ⟨ext, ?_⟩
      simp only [List.find?_cons, hoff, List.filter_cons, hk]
      simp only [forRange, loopBody_skip ty idx c _ evs hk]
      exact hih
    | true =>
      cases hd : c.Deleted with
      | true =>
        have hoff : offending h c = true := by simp [offending, hk, hd]
        refine ⟨[], ?_⟩
        simp only [List.find?_cons, hoff]
        simp [forRange, loopBody_deleted ty idx c _ evs hk hd, hd]
      | false =>
        cases hw : wellTyped h c with
        | false =>
          have hoff : offending h c = true := by simp [offending, hk, hd, hw]
          have hvc : validChange h c = true := hv c (List.mem_cons_self _ _) hk hd hw
          have hw2 : wellTyped (h ++ ext0) c = false := by rw [wellTyped_ext ext0 hvc]; exact hw
          refine ⟨[], ?_⟩
          simp only [List.find?_cons, hoff]
          simp [forRange, loopBody_mismatch ty idx c _ evs hk hd hw2, hd]
        | true =>
          have hoff : offending h c = false := by simp [offending, hk, hd, hw]
          have hvc : validChange h c = true := wellTyped_valid hw
          have hw2 : wellTyped (h ++ ext0) c = true := by rw [wellTyped_ext ext0 hvc]; exact hw
          obtain ⟨e, ext1, hstep, hev⟩ := loopBody_ok ty idx c (h ++ ext0) evs hd hw2
          obtain ⟨ext, hih⟩ := ih (ext0 ++ ext1) (evs ++ [e]) hvcs
          refine ⟨ext1 ++ ext, ?_⟩
          simp only [List.find?_cons, hoff, List.filter_cons, hk]
          simp only [forRange, hstep]
          cases hf : cs.find? (offending h) with
          | some d =>
            simp only [hf] at hih
            simp only [← List.append_assoc] at hih ⊢
            exact hih
          | none =>
            simp only [hf] at hih
            obtain ⟨new, hrun, hall⟩ := hih
            refine ⟨e :: new, ?_, ?_⟩
            · simp only [← List.append_assoc] at hrun ⊢
              rw [hrun]
              simp
            · simp only [if_true]
              refine List.Forall₂.cons ?_ ?_
              · have := EventOf_mono ext (EventOf_base hvc hev)
                simpa [List.append_assoc] using this
              · simpa [List.append_assoc] using hall

theorem loopBody_heap (ty : String) (idx : Nat) (c : Change) (g : Heap) (evs : List Event) :
    ∃ ext, (loopBody ty idx c g evs).heap = g ++ ext := by
  cases hk : knownTable c.Table with
  | false => exact ⟨[], by simp [loopBody_skip ty idx c g evs hk, Step.heap]⟩
  | true =>
    cases hd : c.Deleted with
    | true => exact ⟨[], by simp [loopBody_deleted ty idx c g evs hk hd, Step.heap]⟩
    | false =>
      cases hw : wellTyped g c with
      | false => exact ⟨[], by simp [loopBody_mismatch ty idx c g evs hk hd hw, Step.heap]⟩
      | true =>
        obtain ⟨e, ext, hstep, _⟩ := loopBody_ok ty idx c g evs hd hw
        exact ⟨ext, by simp [hstep, Step.heap]⟩

theorem forRange_heap (ty : String) (idx : Nat) :
    ∀ (cs : List Change) (g : Heap) (evs : List Event),
      ∃ ext, (forRange ty idx cs g evs).heap = g ++ ext := by
  intro cs
  induction cs with
  | nil => intro g evs; exact ⟨[], by simp [forRange, Step.heap]⟩
  | cons c cs ih =>
    intro g evs
    obtain ⟨ext1, h1⟩ := loopBody_heap ty idx c g evs
    cases hb : loopBody ty idx c g evs with
    | ret r g1 =>
      rw [hb] at h1
      exact ⟨ext1, by simpa [forRange, hb, Step.heap] using h1⟩
    | next g1 evs1 =>
      rw [hb] at h1
      simp only [Step.heap] at h1
      obtain ⟨ext2, h2⟩ := ih g1 evs1
      refine ⟨ext1 ++ ext2, ?_⟩
      simp only [forRange, hb]
      rw [h2, h1, List.append_assoc]

theorem GenericEventsFromChanges_heap (h : Heap) (cs : Changes) :
    ∃ ext, (GenericEventsFromChanges h cs).2 = h ++ ext := by
  unfold GenericEventsFromChanges
  cases hty : eventTypeOf cs.MsgType with
  | none => exact ⟨[], by simp⟩
  | some ty =>
    obtain ⟨ext, hext⟩ := forRange_heap ty cs.Index cs.Changes h []
    refine ⟨ext, ?_⟩
    dsimp only
    cases hf : forRange ty cs.Index cs.Changes h [] with
    | ret r g => rw [hf] at hext; simpa [Step.heap] using hext
    | next g evs => rw [hf] at hext; simpa [Step.heap] using hext

theorem forRange_append (ty : String) (idx : Nat) :
    ∀ (pre rest : List Change) (g : Heap) (evs : List Event),
      forRange ty idx (pre ++ rest) g evs =
        match forRange ty idx pre g evs with
        | Step.ret r g1 => Step.ret r g1
        | Step.next g1 evs1 => forRange ty idx rest g1 evs1 := by
  intro pre
  induction pre with
  | nil => intro rest g evs; simp [forRange]
  | cons c pre ih =>
    intro rest g evs
    simp only [List.cons_append, forRange]
    cases hb : loopBody ty idx c g evs with
    | ret r g1 => rfl
    | next g1 evs1 => exact ih rest g1 evs1

theorem forall₂_getElem? {α β : Type} {R : α → β → Prop} :
    ∀ {l1 : List α} {l2 : List β}, List.Forall₂ R l1 l2 →
      ∀ (i : Nat) (a : α), l1[i]? = some a → ∃ b, l2[i]? = some b ∧ R a b := by
  intro l1 l2 hall
  induction hall with
  | nil => intro i a hi; simp at hi
  | cons hab _ ih =>
    intro i a hi
    cases i with
    | zero =>
      simp at hi
      subst hi
      exact ⟨_, by simp, hab⟩
    | succ n =>
      simp at hi
      obtain ⟨b, hb, hr⟩ := ih n a hi
      exact ⟨b, by simpa using hb, hr⟩

/-- The function, characterised for a recognized write-type. -/
theorem GenericEventsFromChanges_spec (h : Heap) (cs : Changes) (ty : String)
    (hty : eventTypeOf cs.MsgType = some ty)
    (hv : ∀ c ∈ cs.Changes, knownTable c.Table = true → c.Deleted = false →
      wellTyped h c = false → validChange h c = true) :
    ∃ ext : Heap, (GenericEventsFromChanges h cs).2 = h ++ ext ∧
      match cs.Changes.find? (offending h) with
      | some c =>
        (GenericEventsFromChanges h cs).1
          = ⟨none, if c.Deleted = true then none else some (mismatchMessage c.Table)⟩
      | none =>
        ∃ evs : List Event,
          (GenericEventsFromChanges h cs).1 = ⟨some { Index := cs.Index, Events := evs }, none⟩ ∧
          List.Forall₂ (EventOf ty cs.Index h (h ++ ext))
            (cs.Changes.filter (fun c => knownTable c.Table)) evs := by
  obtain ⟨ext, hspec⟩ := forRange_spec ty cs.Index h cs.Changes [] [] hv
  refine ⟨ext, ?_⟩
  simp only [List.append_nil] at hspec
  cases hf : cs.Changes.find? (offending h) with
  | some c =>
    simp only [hf] at hspec
    have hG : GenericEventsFromChanges h cs
        = (⟨none, if c.Deleted = true then none else some (mismatchMessage c.Table)⟩,
            h ++ ext) := by
      simp [GenericEventsFromChanges, hty, hspec]
    rw [hG]
    exact ⟨rfl, rfl⟩
  | none =>
    simp only [hf] at hspec
    obtain ⟨new, hrun, hall⟩ := hspec
    simp only [List.nil_append] at hrun
    have hG : GenericEventsFromChanges h cs
        = (⟨some { Index := cs.Index, Events := new }, none⟩, h ++ ext) := by
      simp [GenericEventsFromChanges, hty, hrun]
    rw [hG]
    exact ⟨rfl, new, rfl, hall⟩

theorem validInput_iff (h : Heap) (cs : Changes) :
    validInput h cs = true ↔ ∀ c ∈ cs.Changes, validChange h c = true := by
  simp [validInput, List.all_eq_true]

/-- A returned batch: the write-type is recognized, the error is nil, the
batch carries the index of the change set and one event per change of the
five tables, in order. -/
theorem GenericEventsFromChanges_batch (h : Heap) (cs : Changes) (b : Events)
    (hv : validInput h cs = true)
    (hb : (GenericEventsFromChanges h cs).1.events = some b) :
    ∃ ty, eventTypeOf cs.MsgType = some ty ∧
      (GenericEventsFromChanges h cs).1.err = none ∧ b.Index = cs.Index ∧
      cs.Changes.find? (offending h) = none ∧
      List.Forall₂ (EventOf ty cs.Index h (GenericEventsFromChanges h cs).2)
        (cs.Changes.filter (fun c => knownTable c.Table)) b.Events := by
  cases hty : eventTypeOf cs.MsgType with
  | none => simp [GenericEventsFromChanges, hty] at hb
  | some ty =>
    have hv2 := (validInput_iff h cs).1 hv
    obtain ⟨ext, hheap, hspec⟩ :=
      GenericEventsFromChanges_spec h cs ty hty (fun c hc _ _ _ => hv2 c hc)
    cases hf : cs.Changes.find? (offending h) with
    | some c =>
      simp only [hf] at hspec
      rw [hspec] at hb
      simp at hb
    | none =>
      simp only [hf] at hspec
      obtain ⟨evs, hres, hall⟩ := hspec
      rw [hres] at hb
      simp at hb
      subst hb
      refine ⟨ty, rfl, ?_, rfl, rfl, ?_⟩
      · rw [hres]
      · rw [hheap]; exact hall

/-! ## Further lemmas on the vocabulary -/

theorem mem_handledTags_iff (t : MessageType) :
    t ∈ handledTags ↔ ∃ ty, eventTypeOf t = some ty := by
  cases t <;> simp [handledTags, eventTypeOf]

theorem EventOf_key {ty : String} {idx : Nat} {h hout : Heap} {c : Change} {e : Event}
    (he : EventOf ty idx h hout c e) :
    recordID h c = some e.Key ∧ e.Index = idx ∧ e.Type_ = ty := by
  obtain ⟨p, hA, hcase⟩ := he
  unfold recordID
  rcases hcase with ⟨_, x, hx, hE⟩ | ⟨_, x, q, hx, _, _, hE⟩ | ⟨_, x, hx, hE⟩ |
    ⟨_, x, hx, hE⟩ | ⟨_, x, hx, hE⟩ <;> simp [hA, hx, hE]

theorem offending_of_find {h : Heap} {cs : List Change} {c : Change}
    (hf : cs.find? (offending h) = some c) : c ∈ cs ∧ offending h c = true :=
  ⟨List.mem_of_find?_eq_some hf, List.find?_some hf⟩

/-! ## The claims -/

/-- C1: for a change set with a recognized write-type whose changes are all
non-deleted, each in one of the five tables with an after-image of the kind
that table expects, the call returns a nil error and a batch of exactly as
many events as there are changes; the i-th event has as `Key` the record ID of
the i-th change and as `Index` the index of the change set, and the batch
carries that index too. -/
theorem C1_all_changes_translated (h : Heap) (cs : Changes)
    (hty : cs.MsgType ∈ handledTags)
    (hok : ∀ c ∈ cs.Changes, c.Deleted = false ∧ wellTyped h c = true) :
    ∃ b : Events, (GenericEventsFromChanges h cs).1 = ⟨some b, none⟩ ∧
      b.Index = cs.Index ∧ b.Events.length = cs.Changes.length ∧
      ∀ (i : Nat) (c : Change), cs.Changes[i]? = some c →
        ∃ e, b.Events[i]? = some e ∧ recordID h c = some e.Key ∧ e.Index = cs.Index := by
  obtain ⟨ty, hty2⟩ := (mem_handledTags_iff _).1 hty
  obtain ⟨ext, _, hspec⟩ := GenericEventsFromChanges_spec h cs ty hty2
    (fun c hc _ _ hw => by rw [(hok c hc).2] at hw; cases hw)
  have hnone : cs.Changes.find? (offending h) = none := by
    rw [List.find?_eq_none]
    intro c hc
    simp [offending, (hok c hc).1, (hok c hc).2]
  have hfilter : cs.Changes.filter (fun c => knownTable c.Table) = cs.Changes := by
    rw [List.filter_eq_self]
    intro c hc
    exact wellTyped_known (hok c hc).2
  simp only [hnone, hfilter] at hspec
  obtain ⟨evs, hres, hall⟩ := hspec
  refine ⟨⟨cs.Index, evs⟩, hres, rfl, hall.length_eq.symm, ?_⟩
  intro i c hi
  obtain ⟨e, he, hR⟩ := forall₂_getElem? hall i c hi
  exact ⟨e, he, (EventOf_key hR).1, (EventOf_key hR).2.1⟩

/-- Witness of C1 on a job, an allocation and an evaluation change. -/
theorem C1_all_changes_translated_witness :
    MessageType.JobRegisterRequestType ∈ handledTags ∧
    (∀ c ∈ [jobChange, allocChange, evalChange],
      c.Deleted = false ∧ wellTyped sampleHeap c = true) ∧
    ∃ b : Events,
      (GenericEventsFromChanges sampleHeap
        ⟨42, [jobChange, allocChange, evalChange], MessageType.JobRegisterRequestType⟩).1
        = ⟨some b, none⟩ ∧
      b.Index = 42 ∧ b.Events.length = 3 ∧
      ∀ (i : Nat) (c : Change), [jobChange, allocChange, evalChange][i]? = some c →
        ∃ e, b.Events[i]? = some e ∧ recordID sampleHeap c = some e.Key ∧ e.Index = 42 :=
  ⟨by decide, by decide,
    C1_all_changes_translated sampleHeap
      ⟨42, [jobChange, allocChange, evalChange], MessageType.JobRegisterRequestType⟩
      (by decide) (by decide)⟩

/-- A deleted change of one of the five tables, preceded in the five tables
only by deleted changes or well-typed ones, makes the loop return `nil, nil`. -/
theorem forRange_deleted (ty : String) (idx : Nat) (h : Heap) (pre post : List Change)
    (c : Change) (evs : List Event)
    (hk : knownTable c.Table = true) (hd : c.Deleted = true)
    (hpre : ∀ d ∈ pre, knownTable d.Table = true → d.Deleted = false → wellTyped h d = true) :
    ∃ g, forRange ty idx (pre ++ c :: post) h evs = Step.ret ⟨none, none⟩ g := by
  have hsplit : pre ++ c :: post = (pre ++ [c]) ++ post := by simp
  rw [hsplit, forRange_append]
  have hv : ∀ d ∈ pre ++ [c], knownTable d.Table = true → d.Deleted = false →
      wellTyped h d = false → validChange h d = true := by
    intro d hmem hkd hdd hwd
    rcases List.mem_append.1 hmem with hm | hm
    · rw [hpre d hm hkd hdd] at hwd; cases hwd
    · simp at hm; subst hm; rw [hd] at hdd; cases hdd
  obtain ⟨ext, hspec⟩ := forRange_spec ty idx h (pre ++ [c]) [] evs hv
  cases hf : (pre ++ [c]).find? (offending h) with
  | none =>
    rw [List.find?_eq_none] at hf
    have := hf c (by simp)
    simp [offending, hk, hd] at this
  | some d =>
    obtain ⟨hmem, hoff⟩ := offending_of_find hf
    have hdel : d.Deleted = true := by
      rcases List.mem_append.1 hmem with hm | hm
      · cases hdd : d.Deleted with
        | true => rfl
        | false =>
          simp only [offending, hdd, Bool.false_or, Bool.and_eq_true,
            Bool.not_eq_true'] at hoff
          rw [hpre d hm hoff.1 hdd] at hoff
          simp at hoff
      · simp at hm; subst hm; exact hd
    simp only [hf, hdel, if_true, List.append_nil] at hspec
    rw [hspec]
    exact ⟨_, rfl⟩

/-- C2 (amended): a change set that contains a deleted change of one of the
five tables, with no earlier non-deleted change of the five tables whose
after-image is of the wrong kind, is answered with a nil batch and a nil
error, whatever the write-type and whatever the other changes are. -/
theorem C2_deleted_change_aborts (h : Heap) (idx : Nat) (t : MessageType)
    (pre post : List Change) (c : Change)
    (hk : knownTable c.Table = true) (hd : c.Deleted = true)
    (hpre : ∀ d ∈ pre, knownTable d.Table = true → d.Deleted = false → wellTyped h d = true) :
    (GenericEventsFromChanges h ⟨idx, pre ++ c :: post, t⟩).1 = ⟨none, none⟩ := by
  unfold GenericEventsFromChanges
  cases hty : eventTypeOf t with
  | none => simp [hty]
  | some ty =>
    obtain ⟨g, hg⟩ := forRange_deleted ty idx h pre post c [] hk hd hpre
    simp [hty, hg]

/-- Witness of C2 (amended): a deleted job change after a translated job
change and before an ill-typed one. -/
theorem C2_deleted_change_aborts_witness :
    knownTable deletedJobChange.Table = true ∧ deletedJobChange.Deleted = true ∧
    (∀ d ∈ [jobChange], knownTable d.Table = true → d.Deleted = false →
      wellTyped sampleHeap d = true) ∧
    (GenericEventsFromChanges sampleHeap
      ⟨42, [jobChange] ++ deletedJobChange :: [mismatchedJobChange],
        MessageType.JobRegisterRequestType⟩).1 = ⟨none, none⟩ :=
  ⟨by decide, by decide, by decide,
    C2_deleted_change_aborts sampleHeap 42 MessageType.JobRegisterRequestType [jobChange]
      [mismatchedJobChange] deletedJobChange (by decide) (by decide) (by decide)⟩

/-- C2 as stated fails: a change set with a deleted change is answered with an
error when an ill-typed change of the five tables comes first, and with a
batch when the deleted change is in a table outside the five. -/
theorem C2_counterexample :
    (∃ c ∈ [mismatchedJobChange, deletedJobChange], c.Deleted = true) ∧
    (GenericEventsFromChanges sampleHeap
      ⟨42, [mismatchedJobChange, deletedJobChange], MessageType.JobRegisterRequestType⟩).1
      = ⟨none, some "transaction change was not an Allocation"⟩ ∧
    (∃ c ∈ [jobChange, (⟨"job_summary", none, true⟩ : Change)], c.Deleted = true) ∧
    (GenericEventsFromChanges sampleHeap
      ⟨42, [jobChange, ⟨"job_summary", none, true⟩], MessageType.JobRegisterRequestType⟩).1
      = ⟨some ⟨42, [⟨TopicJob, TypeJobRegistered, "web", "default", [], 42,
          Payload.JobEvent 0⟩]⟩, none⟩ := by
  refine ⟨by decide, by decide, by decide, by decide⟩

/-- C3 (code evaluated at the failing input): with a deleted job change after a
translatable job change the call returns `nil, nil`, while the same change set
without the deleted change yields the batch with the event of the first
change; the deleted change is not ignored. -/
theorem C3_delete_not_ignored :
    (GenericEventsFromChanges sampleHeap
      ⟨42, [jobChange, deletedJobChange], MessageType.JobRegisterRequestType⟩).1
      = ⟨none, none⟩ ∧
    [jobChange, deletedJobChange].filter (fun c => !c.Deleted) = [jobChange] ∧
    (GenericEventsFromChanges sampleHeap
      ⟨42, [jobChange], MessageType.JobRegisterRequestType⟩).1
      = ⟨some ⟨42, [⟨TopicJob, TypeJobRegistered, "web", "default", [], 42,
          Payload.JobEvent 0⟩]⟩, none⟩ := by
  refine ⟨by decide, by decide, by decide⟩

/-- C4 (amended): for a recognized write-type, a non-deleted change of one of
the five tables whose after-image is not of the kind its table expects,
preceded in the five tables only by non-deleted well-typed changes, makes the
call return a nil batch and a non-nil error. -/
theorem C4_mismatch_is_error (h : Heap) (idx : Nat) (t : MessageType)
    (pre post : List Change) (c : Change)
    (hty : t ∈ handledTags)
    (hk : knownTable c.Table = true) (hd : c.Deleted = false)
    (hw : wellTyped h c = false) (hvc : validChange h c = true)
    (hpre : ∀ d ∈ pre, knownTable d.Table = true →
      d.Deleted = false ∧ wellTyped h d = true) :
    (GenericEventsFromChanges h ⟨idx, pre ++ c :: post, t⟩).1.events = none ∧
    ∃ msg, (GenericEventsFromChanges h ⟨idx, pre ++ c :: post, t⟩).1.err = some msg := by
  obtain ⟨ty, hty2⟩ := (mem_handledTags_iff _).1 hty
  have hsplit : pre ++ c :: post = (pre ++ [c]) ++ post := by simp
  have hv : ∀ d ∈ pre ++ [c], knownTable d.Table = true → d.Deleted = false →
      wellTyped h d = false → validChange h d = true := by
    intro d hmem hkd _ hwd
    rcases List.mem_append.1 hmem with hm | hm
    · rw [(hpre d hm hkd).2] at hwd; cases hwd
    · simp at hm; subst hm; exact hvc
  obtain ⟨ext, hspec⟩ := forRange_spec ty idx h (pre ++ [c]) [] [] hv
  have hfind : (pre ++ [c]).find? (offending h) = some c := by
    rw [List.find?_append]
    have hnone : pre.find? (offending h) = none := by
      rw [List.find?_eq_none]
      intro d hm
      cases hkd : knownTable d.Table with
      | false => simp [offending, hkd]
      | true => simp [offending, (hpre d hm hkd).1, (hpre d hm hkd).2]
    simp [hnone, offending, hk, hd, hw]
  simp only [hfind, hd, List.append_nil] at hspec
  have hG : (GenericEventsFromChanges h ⟨idx, pre ++ c :: post, t⟩).1
      = ⟨none, some (mismatchMessage c.Table)⟩ := by
    have hrun : forRange ty idx (pre ++ c :: post) h []
        = Step.ret ⟨none, some (mismatchMessage c.Table)⟩ (h ++ ext) := by
      rw [hsplit, forRange_append, hspec]
      simp
    simp [GenericEventsFromChanges, hty2, hrun]
  rw [hG]
  exact ⟨rfl, _, rfl⟩

/-- Witness of C4 (amended): an ill-typed job change after a translated one. -/
theorem C4_mismatch_is_error_witness :
    MessageType.JobRegisterRequestType ∈ handledTags ∧
    knownTable mismatchedJobChange.Table = true ∧ mismatchedJobChange.Deleted = false ∧
    wellTyped sampleHeap mismatchedJobChange = false ∧
    validChange sampleHeap mismatchedJobChange = true ∧
    (∀ d ∈ [jobChange], knownTable d.Table = true →
      d.Deleted = false ∧ wellTyped sampleHeap d = true) ∧
    (GenericEventsFromChanges sampleHeap
      ⟨42, [jobChange] ++ mismatchedJobChange :: [deletedJobChange],
        MessageType.JobRegisterRequestType⟩).1.events = none ∧
    ∃ msg, (GenericEventsFromChanges sampleHeap
      ⟨42, [jobChange] ++ mismatchedJobChange :: [deletedJobChange],
        MessageType.JobRegisterRequestType⟩).1.err = some msg :=
  ⟨by decide, by decide, by decide, by decide, by decide, by decide,
    C4_mismatch_is_error sampleHeap 42 MessageType.JobRegisterRequestType [jobChange]
      [deletedJobChange] mismatchedJobChange (by decide) (by decide) (by decide) (by decide)
      (by decide) (by decide)⟩

/-- C4 as stated fails: a change set that contains an ill-typed job change is
answered with a nil batch and a nil error when a deleted change comes first,
and also when the write-type is not recognized. -/
theorem C4_counterexample :
    knownTable mismatchedJobChange.Table = true ∧
    wellTyped sampleHeap mismatchedJobChange = false ∧
    (GenericEventsFromChanges sampleHeap
      ⟨42, [deletedJobChange, mismatchedJobChange], MessageType.JobRegisterRequestType⟩).1
      = ⟨none, none⟩ ∧
    (GenericEventsFromChanges sampleHeap
      ⟨42, [mismatchedJobChange], MessageType.NodeDeregisterRequestType⟩).1
      = ⟨none, none⟩ := by
  refine ⟨by decide, by decide, by decide, by decide⟩

/-- C5: for a write-type tag that has no case in the classifier the call
returns a nil batch and a nil error, whatever the changes are. -/
theorem C5_unrecognized_write_type (h : Heap) (cs : Changes)
    (ht : cs.MsgType ∉ handledTags) :
    (GenericEventsFromChanges h cs).1 = ⟨none, none⟩ := by
  cases hty : eventTypeOf cs.MsgType with
  | none => simp [GenericEventsFromChanges, hty]
  | some ty => exact absurd ((mem_handledTags_iff _).2 ⟨ty, hty⟩) ht

/-- Witness of C5: an unlisted tag, with a deleted and an ill-typed change. -/
theorem C5_unrecognized_write_type_witness :
    MessageType.Other 200 ∉ handledTags ∧
    (GenericEventsFromChanges sampleHeap
      ⟨42, [jobChange, deletedJobChange, mismatchedJobChange], MessageType.Other 200⟩).1
      = ⟨none, none⟩ :=
  ⟨by decide,
    C5_unrecognized_write_type sampleHeap
      ⟨42, [jobChange, deletedJobChange, mismatchedJobChange], MessageType.Other 200⟩
      (by decide)⟩

theorem EventOf_allocs {ty : String} {idx : Nat} {h hout : Heap} {c : Change} {e : Event}
    (he : EventOf ty idx h hout c e) (hT : c.Table = "allocs") :
    ∃ p x q, c.After = some p ∧ h[p]? = some (Object.Allocation x) ∧ h.length ≤ q ∧
      hout[q]? = some (Object.Allocation { x with Job := none }) ∧
      e = { Topic := TopicAlloc, Type_ := ty, Index := idx, Key := x.ID,
            Namespace := x.Namespace, FilterKeys := [x.JobID, x.DeploymentID],
            Payload := Payload.AllocEvent q } := by
  obtain ⟨p, hA, hcase⟩ := he
  rcases hcase with ⟨h1, _⟩ | ⟨_, x, q, hx, hq, ho, hE⟩ | ⟨h1, _⟩ | ⟨h1, _⟩ | ⟨h1, _⟩
  · rw [hT] at h1; exact absurd h1 (by decide)
  · exact ⟨p, x, q, hA, hx, hq, ho, hE⟩
  · rw [hT] at h1; exact absurd h1 (by decide)
  · rw [hT] at h1; exact absurd h1 (by decide)
  · rw [hT] at h1; exact absurd h1 (by decide)

theorem EventOf_jobs {ty : String} {idx : Nat} {h hout : Heap} {c : Change} {e : Event}
    (he : EventOf ty idx h hout c e) (hT : c.Table = "jobs") :
    ∃ p x, c.After = some p ∧ h[p]? = some (Object.Job x) ∧
      e = { Topic := TopicJob, Type_ := ty, Index := idx, Key := x.ID,
            Namespace := x.Namespace, FilterKeys := [], Payload := Payload.JobEvent p } := by
  obtain ⟨p, hA, hcase⟩ := he
  rcases hcase with ⟨h1, _⟩ | ⟨h1, _⟩ | ⟨_, x, hx, hE⟩ | ⟨h1, _⟩ | ⟨h1, _⟩
  · rw [hT] at h1; exact absurd h1 (by decide)
  · rw [hT] at h1; exact absurd h1 (by decide)
  · exact ⟨p, x, hA, hx, hE⟩
  · rw [hT] at h1; exact absurd h1 (by decide)
  · rw [hT] at h1; exact absurd h1 (by decide)

/-- C6 (amended): every write-type tag of the spec's enumeration other than
node deregistration, and also the upsert-node-events tag, is classified to an
event-type label: translating a change set with that tag and one non-deleted
well-typed change of one of the five tables yields a nil error and a batch
with exactly one event, whose `Type_` is the label. -/
theorem C6_listed_tags_classified (t : MessageType) (h : Heap) (idx : Nat) (c : Change)
    (ht : (t ∈ specEnumeration ∧ t ≠ MessageType.NodeDeregisterRequestType) ∨
      t = MessageType.UpsertNodeEventsType)
    (hd : c.Deleted = false) (hw : wellTyped h c = true) :
    ∃ ty e, eventTypeOf t = some ty ∧
      (GenericEventsFromChanges h ⟨idx, [c], t⟩).1 = ⟨some ⟨idx, [e]⟩, none⟩ ∧
      e.Type_ = ty := by
  have hmem : t ∈ handledTags := by
    rcases ht with ⟨h1, h2⟩ | h1
    · cases t <;> simp [specEnumeration, handledTags] at h1 h2 ⊢
    · subst h1; decide
  obtain ⟨ty, hty⟩ := (mem_handledTags_iff _).1 hmem
  obtain ⟨ext, _, hspec⟩ := GenericEventsFromChanges_spec h ⟨idx, [c], t⟩ ty hty
    (fun d hm _ _ hwd => by
      simp at hm
      subst hm
      rw [hw] at hwd
      cases hwd)
  have hoff : offending h c = false := by simp [offending, hd, hw]
  simp only [List.find?_cons, hoff, List.find?_nil, List.filter_cons, wellTyped_known hw,
    if_true, List.filter_nil] at hspec
  obtain ⟨evs, hres, hall⟩ := hspec
  cases hall with
  | cons hR htail =>
    cases htail
    exact ⟨ty, _, hty, hres, (EventOf_key hR).2.2⟩

/-- Witness of C6 (amended): the upsert-node-events tag and a node change. -/
theorem C6_listed_tags_classified_witness :
    ((MessageType.UpsertNodeEventsType ∈ specEnumeration ∧
        MessageType.UpsertNodeEventsType ≠ MessageType.NodeDeregisterRequestType) ∨
      MessageType.UpsertNodeEventsType = MessageType.UpsertNodeEventsType) ∧
    nodeChange.Deleted = false ∧ wellTyped sampleHeap nodeChange = true ∧
    ∃ ty e, eventTypeOf MessageType.UpsertNodeEventsType = some ty ∧
      (GenericEventsFromChanges sampleHeap
        ⟨42, [nodeChange], MessageType.UpsertNodeEventsType⟩).1 = ⟨some ⟨42, [e]⟩, none⟩ ∧
      e.Type_ = ty :=
  ⟨by decide, by decide, by decide,
    C6_listed_tags_classified MessageType.UpsertNodeEventsType sampleHeap 42 nodeChange
      (by decide) (by decide) (by decide)⟩

/-- C6 as stated fails: node deregistration is in the spec's enumeration, yet a
change set with that tag and one non-deleted well-typed node change is answered
with a nil batch, the outcome of an unrecognized tag. -/
theorem C6_counterexample :
    MessageType.NodeDeregisterRequestType ∈ specEnumeration ∧
    nodeChange.Deleted = false ∧ wellTyped sampleHeap nodeChange = true ∧
    eventTypeOf MessageType.NodeDeregisterRequestType = none ∧
    (GenericEventsFromChanges sampleHeap
      ⟨42, [nodeChange], MessageType.NodeDeregisterRequestType⟩).1 = ⟨none, none⟩ := by
  refine ⟨by decide, by decide, by decide, by decide, by decide⟩

/-- C7: in every returned batch (for a change set whose after-images point
into the heap of the call), the event produced from a change of table
`allocs` has topic Alloc, and its payload points to an allocation whose `Job`
is nil and whose other fields are those of the after-image. -/
theorem C7_alloc_payload_job_cleared (h : Heap) (cs : Changes) (b : Events)
    (hv : validInput h cs = true)
    (hb : (GenericEventsFromChanges h cs).1.events = some b) :
    List.Forall₂
      (fun (c : Change) (e : Event) => c.Table = "allocs" →
        e.Topic = TopicAlloc ∧
        ∃ p a q, c.After = some p ∧ h[p]? = some (Object.Allocation a) ∧
          e.Payload = Payload.AllocEvent q ∧
          (GenericEventsFromChanges h cs).2[q]?
            = some (Object.Allocation
                { ID := a.ID, Namespace := a.Namespace, JobID := a.JobID,
                  DeploymentID := a.DeploymentID, Job := none, Rest := a.Rest }))
      (cs.Changes.filter (fun c => knownTable c.Table)) b.Events := by
  obtain ⟨ty, _, _, _, _, hall⟩ := GenericEventsFromChanges_batch h cs b hv hb
  refine hall.imp ?_
  intro c e hR hT
  obtain ⟨p, x, q, hA, hx, _, ho, hE⟩ := EventOf_allocs hR hT
  subst hE
  exact ⟨rfl, p, x, q, hA, hx, rfl, ho⟩

/-- Witness of C7: an allocation whose embedded job is set, between a job and
an evaluation change. -/
theorem C7_alloc_payload_job_cleared_witness :
    validInput sampleHeap sampleChanges = true ∧
    (GenericEventsFromChanges sampleHeap sampleChanges).1.events = some sampleBatch ∧
    List.Forall₂
      (fun (c : Change) (e : Event) => c.Table = "allocs" →
        e.Topic = TopicAlloc ∧
        ∃ p a q, c.After = some p ∧ sampleHeap[p]? = some (Object.Allocation a) ∧
          e.Payload = Payload.AllocEvent q ∧
          (GenericEventsFromChanges sampleHeap sampleChanges).2[q]?
            = some (Object.Allocation
                { ID := a.ID, Namespace := a.Namespace, JobID := a.JobID,
                  DeploymentID := a.DeploymentID, Job := none, Rest := a.Rest }))
      (sampleChanges.Changes.filter (fun c => knownTable c.Table)) sampleBatch.Events :=
  ⟨by decide, by decide,
    C7_alloc_payload_job_cleared sampleHeap sampleChanges sampleBatch (by decide) (by decide)⟩

/-- C8: the call does not mutate its input: every object of the heap the call
starts on, so every after-image of the change set, is unchanged in the heap
the call ends on; an allocation after-image that had an embedded job still
has it (the `Job` field is cleared on the copy only). -/
theorem C8_input_not_mutated (h : Heap) (cs : Changes) (p : Ptr) (o : Object)
    (hp : h[p]? = some o) :
    (GenericEventsFromChanges h cs).2[p]? = some o := by
  obtain ⟨ext, hext⟩ := GenericEventsFromChanges_heap h cs
  rw [hext, heap_get_append h ext p (heap_lt_of_get hp)]
  exact hp

/-- Witness of C8: the allocation after-image of `sampleChanges` keeps its
embedded job. -/
theorem C8_input_not_mutated_witness :
    sampleHeap[1]? = some (Object.Allocation
      ⟨"a1", "default", "web", "", some ⟨"web", "default", "job fields"⟩, "alloc fields"⟩) ∧
    (GenericEventsFromChanges sampleHeap sampleChanges).2[1]? = some (Object.Allocation
      ⟨"a1", "default", "web", "", some ⟨"web", "default", "job fields"⟩, "alloc fields"⟩) :=
  ⟨by decide, C8_input_not_mutated sampleHeap sampleChanges 1 _ (by decide)⟩

/-- C9: in every returned batch (for a change set whose after-images point
into the heap of the call), the event produced from a change of table
`allocs` has as `FilterKeys` exactly the job ID and the deployment ID of the
allocation after-image, in that order, as `Key` the allocation ID and as
`Namespace` the allocation namespace. -/
theorem C9_alloc_filter_keys (h : Heap) (cs : Changes) (b : Events)
    (hv : validInput h cs = true)
    (hb : (GenericEventsFromChanges h cs).1.events = some b) :
    List.Forall₂
      (fun (c : Change) (e : Event) => c.Table = "allocs" →
        ∃ p a, c.After = some p ∧ h[p]? = some (Object.Allocation a) ∧
          e.FilterKeys = [a.JobID, a.DeploymentID] ∧ e.Key = a.ID ∧
          e.Namespace = a.Namespace)
      (cs.Changes.filter (fun c => knownTable c.Table)) b.Events := by
  obtain ⟨ty, _, _, _, _, hall⟩ := GenericEventsFromChanges_batch h cs b hv hb
  refine hall.imp ?_
  intro c e hR hT
  obtain ⟨p, x, q, hA, hx, _, _, hE⟩ := EventOf_allocs hR hT
  subst hE
  exact ⟨p, x, hA, hx, rfl, rfl, rfl⟩

/-- Witness of C9: the allocation of `sampleHeap` has an empty deployment ID,
which is still the second filter key. -/
theorem C9_alloc_filter_keys_witness :
    validInput sampleHeap sampleChanges = true ∧
    (GenericEventsFromChanges sampleHeap sampleChanges).1.events = some sampleBatch ∧
    List.Forall₂
      (fun (c : Change) (e : Event) => c.Table = "allocs" →
        ∃ p a, c.After = some p ∧ sampleHeap[p]? = some (Object.Allocation a) ∧
          e.FilterKeys = [a.JobID, a.DeploymentID] ∧ e.Key = a.ID ∧
          e.Namespace = a.Namespace)
      (sampleChanges.Changes.filter (fun c => knownTable c.Table)) sampleBatch.Events :=
  ⟨by decide, by decide,
    C9_alloc_filter_keys sampleHeap sampleChanges sampleBatch (by decide) (by decide)⟩

/-- C10: the example of the spec (write-type JobRegister, index 42, one
non-deleted change of table `jobs` whose after-image is the job with ID "web"
and namespace "default") returns a nil error and the batch of index 42 with
the one event of topic Job, type "JobRegistered", index 42, key "web",
namespace "default", whose payload is that job; and in every returned batch
the event produced from a change of table `jobs` has topic Job, the job ID as
`Key`, the job namespace as `Namespace` and the after-image job, unchanged, as
payload. -/
theorem C10_job_event :
    (∀ (h : Heap) (p : Ptr) (rest : String),
      h[p]? = some (Object.Job ⟨"web", "default", rest⟩) →
      GenericEventsFromChanges h
          ⟨42, [⟨"jobs", some p, false⟩], MessageType.JobRegisterRequestType⟩
        = (⟨some ⟨42, [{ Topic := "Job", Type_ := "JobRegistered", Index := 42, Key := "web",
                         Namespace := "default", FilterKeys := [],
                         Payload := Payload.JobEvent p }]⟩, none⟩, h)) ∧
    (∀ (h : Heap) (cs : Changes) (b : Events), validInput h cs = true →
      (GenericEventsFromChanges h cs).1.events = some b →
      List.Forall₂
        (fun (c : Change) (e : Event) => c.Table = "jobs" →
          e.Topic = TopicJob ∧
          ∃ p j, c.After = some p ∧ h[p]? = some (Object.Job j) ∧
            e.Key = j.ID ∧ e.Namespace = j.Namespace ∧ e.Payload = Payload.JobEvent p ∧
            (GenericEventsFromChanges h cs).2[p]? = some (Object.Job j))
        (cs.Changes.filter (fun c => knownTable c.Table)) b.Events) := by
  constructor
  · intro h p rest hp
    simp [GenericEventsFromChanges, eventTypeOf, forRange, loopBody, Change.Deleted,
      assertJob, derefJob, hp, TypeJobRegistered, TopicJob]
  · intro h cs b hv hb
    obtain ⟨ty, _, _, _, _, hall⟩ := GenericEventsFromChanges_batch h cs b hv hb
    obtain ⟨ext, hext⟩ := GenericEventsFromChanges_heap h cs
    refine hall.imp ?_
    intro c e hR hT
    obtain ⟨p, x, hA, hx, hE⟩ := EventOf_jobs hR hT
    subst hE
    refine ⟨rfl, p, x, hA, hx, rfl, rfl, rfl, ?_⟩
    rw [hext, heap_get_append h ext p (heap_lt_of_get hx)]
    exact hx

/-- Witness of C10: the example on `sampleHeap`, and the general part on
`sampleChanges`. -/
theorem C10_job_event_witness :
    (sampleHeap[0]? = some (Object.Job ⟨"web", "default", "job fields"⟩) ∧
      GenericEventsFromChanges sampleHeap
          ⟨42, [⟨"jobs", some 0, false⟩], MessageType.JobRegisterRequestType⟩
        = (⟨some ⟨42, [{ Topic := "Job", Type_ := "JobRegistered", Index := 42, Key := "web",
                         Namespace := "default", FilterKeys := [],
                         Payload := Payload.JobEvent 0 }]⟩, none⟩, sampleHeap)) ∧
    (validInput sampleHeap sampleChanges = true ∧
      (GenericEventsFromChanges sampleHeap sampleChanges).1.events = some sampleBatch ∧
      List.Forall₂
        (fun (c : Change) (e : Event) => c.Table = "jobs" →
          e.Topic = TopicJob ∧
          ∃ p j, c.After = some p ∧ sampleHeap[p]? = some (Object.Job j) ∧
            e.Key = j.ID ∧ e.Namespace = j.Namespace ∧ e.Payload = Payload.JobEvent p ∧
            (GenericEventsFromChanges sampleHeap sampleChanges).2[p]? = some (Object.Job j))
        (sampleChanges.Changes.filter (fun c => knownTable c.Table)) sampleBatch.Events) :=
  ⟨⟨by decide, C10_job_event.1 sampleHeap 0 "job fields" (by decide)⟩,
    ⟨by decide, by decide,
      C10_job_event.2 sampleHeap sampleChanges sampleBatch (by decide) (by decide)⟩⟩

/-! ## Events of a returned batch, whatever the input pointers -/

theorem forRange_next (ty : String) (idx : Nat) :
    ∀ (cs : List Change) (g g1 : Heap) (evs evs1 : List Event),
      forRange ty idx cs g evs = Step.next g1 evs1 →
      ∃ new : List Event, evs1 = evs ++ new ∧
        List.Forall₂ (fun (c : Change) (e : Event) => ∃ k k1 : Heap, EventOf ty idx k k1 c e)
          (cs.filter (fun c => knownTable c.Table)) new := by
  intro cs
  induction cs with
  | nil =>
    intro g g1 evs evs1 hrun
    simp only [forRange, Step.next.injEq] at hrun
    exact ⟨[], by simp [hrun.2], by simp⟩
  | cons c cs ih =>
    intro g g1 evs evs1 hrun
    cases hk : knownTable c.Table with
    | false =>
      simp only [forRange, loopBody_skip ty idx c g evs hk] at hrun
      obtain ⟨new, hnew, hall⟩ := ih g g1 evs evs1 hrun
      exact ⟨new, hnew, by simpa [List.filter_cons, hk] using hall⟩
    | true =>
      cases hd : c.Deleted with
      | true =>
        simp [forRange, loopBody_deleted ty idx c g evs hk hd] at hrun
      | false =>
        cases hw : wellTyped g c with
        | false =>
          simp [forRange, loopBody_mismatch ty idx c g evs hk hd hw] at hrun
        | true =>
          obtain ⟨e, ext, hstep, hev⟩ := loopBody_ok ty idx c g evs hd hw
          simp only [forRange, hstep] at hrun
          obtain ⟨new, hnew, hall⟩ := ih (g ++ ext) g1 (evs ++ [e]) evs1 hrun
          refine ⟨e :: new, by simp [hnew], ?_⟩
          simp only [List.filter_cons, hk, if_true]
          exact List.Forall₂.cons ⟨g, g ++ ext, hev⟩ hall

/-- A return from inside the loop never carries a batch. -/
theorem forRange_ret (ty : String) (idx : Nat) :
    ∀ (cs : List Change) (g g1 : Heap) (evs : List Event) (r : Result),
      forRange ty idx cs g evs = Step.ret r g1 → r.events = none := by
  intro cs
  induction cs with
  | nil => intro g g1 evs r hf; simp [forRange] at hf
  | cons c rest ih =>
    intro g g1 evs r hf
    cases hk : knownTable c.Table with
    | false =>
      simp only [forRange, loopBody_skip ty idx c g evs hk] at hf
      exact ih g g1 evs r hf
    | true =>
      cases hd : c.Deleted with
      | true =>
        simp only [forRange, loopBody_deleted ty idx c g evs hk hd, Step.ret.injEq] at hf
        rw [← hf.1]
      | false =>
        cases hw : wellTyped g c with
        | false =>
          simp only [forRange, loopBody_mismatch ty idx c g evs hk hd hw,
            Step.ret.injEq] at hf
          rw [← hf.1]
        | true =>
          obtain ⟨e, ext, hstep, _⟩ := loopBody_ok ty idx c g evs hd hw
          simp only [forRange, hstep] at hf
          exact ih (g ++ ext) g1 (evs ++ [e]) r hf

/-- A returned batch, without any assumption on the pointers of the input:
the write-type is recognized, the batch carries the index of the change set,
and its events are paired, in order, with the changes of the five tables. -/
theorem GenericEventsFromChanges_events (h : Heap) (cs : Changes) (b : Events)
    (hb : (GenericEventsFromChanges h cs).1.events = some b) :
    ∃ ty, eventTypeOf cs.MsgType = some ty ∧ b.Index = cs.Index ∧
      List.Forall₂
        (fun (c : Change) (e : Event) => ∃ k k1 : Heap, EventOf ty cs.Index k k1 c e)
        (cs.Changes.filter (fun c => knownTable c.Table)) b.Events := by
  cases hty : eventTypeOf cs.MsgType with
  | none => simp [GenericEventsFromChanges, hty] at hb
  | some ty =>
    cases hf : forRange ty cs.Index cs.Changes h [] with
    | ret r g =>
      have hG : (GenericEventsFromChanges h cs).1 = r := by
        simp [GenericEventsFromChanges, hty, hf]
      rw [hG] at hb
      have hr : r.events = none := forRange_ret ty cs.Index cs.Changes h g [] r hf
      rw [hr] at hb
      cases hb
    | next g evs =>
      obtain ⟨new, hnew, hall⟩ := forRange_next ty cs.Index cs.Changes h g [] evs hf
      have hG : (GenericEventsFromChanges h cs).1
          = ⟨some { Index := cs.Index, Events := evs }, none⟩ := by
        simp [GenericEventsFromChanges, hty, hf]
      rw [hG] at hb
      simp at hb
      subst hb
      simp only [List.nil_append] at hnew
      subst hnew
      exact ⟨ty, rfl, rfl, hall⟩

theorem forall₂_mem_right {α β : Type} {R : α → β → Prop} :
    ∀ {l1 : List α} {l2 : List β}, List.Forall₂ R l1 l2 →
      ∀ b ∈ l2, ∃ a ∈ l1, R a b := by
  intro l1 l2 hall
  induction hall with
  | nil => intro b hb; cases hb
  | cons hab _ ih =>
    intro b hb
    rcases List.mem_cons.1 hb with hb1 | hb1
    · subst hb1
      exact ⟨_, List.mem_cons_self _ _, hab⟩
    · obtain ⟨a, ha, hr⟩ := ih b hb1
      exact ⟨a, List.mem_cons_of_mem _ ha, hr⟩

theorem EventOf_evals {ty : String} {idx : Nat} {h hout : Heap} {c : Change} {e : Event}
    (he : EventOf ty idx h hout c e) (hT : c.Table = "evals") :
    ∃ p x, c.After = some p ∧ h[p]? = some (Object.Evaluation x) ∧
      e = { Topic := TopicEval, Type_ := ty, Index := idx, Key := x.ID,
            Namespace := x.Namespace, FilterKeys := [], Payload := Payload.EvalEvent p } := by
  obtain ⟨p, hA, hcase⟩ := he
  rcases hcase with ⟨_, x, hx, hE⟩ | ⟨h1, _⟩ | ⟨h1, _⟩ | ⟨h1, _⟩ | ⟨h1, _⟩
  · exact ⟨p, x, hA, hx, hE⟩
  · rw [hT] at h1; exact absurd h1 (by decide)
  · rw [hT] at h1; exact absurd h1 (by decide)
  · rw [hT] at h1; exact absurd h1 (by decide)
  · rw [hT] at h1; exact absurd h1 (by decide)

theorem EventOf_nodes {ty : String} {idx : Nat} {h hout : Heap} {c : Change} {e : Event}
    (he : EventOf ty idx h hout c e) (hT : c.Table = "nodes") :
    ∃ p x, c.After = some p ∧ h[p]? = some (Object.Node x) ∧
      e = { Topic := TopicNode, Type_ := ty, Index := idx, Key := x.ID,
            Namespace := "", FilterKeys := [], Payload := Payload.NodeEvent p } := by
  obtain ⟨p, hA, hcase⟩ := he
  rcases hcase with ⟨h1, _⟩ | ⟨h1, _⟩ | ⟨h1, _⟩ | ⟨_, x, hx, hE⟩ | ⟨h1, _⟩
  · rw [hT] at h1; exact absurd h1 (by decide)
  · rw [hT] at h1; exact absurd h1 (by decide)
  · rw [hT] at h1; exact absurd h1 (by decide)
  · exact ⟨p, x, hA, hx, hE⟩
  · rw [hT] at h1; exact absurd h1 (by decide)

theorem EventOf_deployment {ty : String} {idx : Nat} {h hout : Heap} {c : Change} {e : Event}
    (he : EventOf ty idx h hout c e) (hT : c.Table = "deployment") :
    ∃ p x, c.After = some p ∧ h[p]? = some (Object.Deployment x) ∧
      e = { Topic := TopicDeployment, Type_ := ty, Index := idx, Key := x.ID,
            Namespace := x.Namespace, FilterKeys := [x.JobID],
            Payload := Payload.DeploymentEvent p } := by
  obtain ⟨p, hA, hcase⟩ := he
  rcases hcase with ⟨h1, _⟩ | ⟨h1, _⟩ | ⟨h1, _⟩ | ⟨h1, _⟩ | ⟨_, x, hx, hE⟩
  · rw [hT] at h1; exact absurd h1 (by decide)
  · rw [hT] at h1; exact absurd h1 (by decide)
  · rw [hT] at h1; exact absurd h1 (by decide)
  · rw [hT] at h1; exact absurd h1 (by decide)
  · exact ⟨p, x, hA, hx, hE⟩

/-- What an event built by the loop body looks like, whatever the heap. -/
theorem EventOf_shape {ty : String} {idx : Nat} {k k1 : Heap} {c : Change} {e : Event}
    (he : EventOf ty idx k k1 c e) :
    e.Type_ = ty ∧ e.Index = idx ∧ topicPayloadPaired e = true ∧
    ((e.Topic = TopicNode ∨ e.Topic = TopicJob) → e.FilterKeys = []) ∧
    (e.Topic = TopicNode → e.Namespace = "") := by
  obtain ⟨p, _, hcase⟩ := he
  rcases hcase with ⟨_, x, _, hE⟩ | ⟨_, x, q, _, _, _, hE⟩ | ⟨_, x, _, hE⟩ |
    ⟨_, x, _, hE⟩ | ⟨_, x, _, hE⟩ <;> subst hE <;>
    simp [topicPayloadPaired, TopicEval, TopicAlloc, TopicJob, TopicNode, TopicDeployment]

/-- C11: in every returned batch (for a change set whose after-images point
into the heap of the call), the event produced from a change of table
`deployment` has topic Deployment, the deployment ID as `Key`, the deployment
namespace as `Namespace`, exactly the one filter key `JobID`, and the
after-image deployment, unchanged, as payload. -/
theorem C11_deployment_event (h : Heap) (cs : Changes) (b : Events)
    (hv : validInput h cs = true)
    (hb : (GenericEventsFromChanges h cs).1.events = some b) :
    List.Forall₂
      (fun (c : Change) (e : Event) => c.Table = "deployment" →
        e.Topic = TopicDeployment ∧
        ∃ p d, c.After = some p ∧ h[p]? = some (Object.Deployment d) ∧
          e.Key = d.ID ∧ e.Namespace = d.Namespace ∧ e.FilterKeys = [d.JobID] ∧
          e.Payload = Payload.DeploymentEvent p ∧
          (GenericEventsFromChanges h cs).2[p]? = some (Object.Deployment d))
      (cs.Changes.filter (fun c => knownTable c.Table)) b.Events := by
  obtain ⟨ty, _, _, _, _, hall⟩ := GenericEventsFromChanges_batch h cs b hv hb
  obtain ⟨ext, hext⟩ := GenericEventsFromChanges_heap h cs
  refine hall.imp ?_
  intro c e hR hT
  obtain ⟨p, x, hA, hx, hE⟩ := EventOf_deployment hR hT
  subst hE
  refine ⟨rfl, p, x, hA, hx, rfl, rfl, rfl, rfl, ?_⟩
  rw [hext, heap_get_append h ext p (heap_lt_of_get hx)]
  exact hx

/-- Witness of C11 on `allKindsChanges`. -/
theorem C11_deployment_event_witness :
    validInput sampleHeap allKindsChanges = true ∧
    (GenericEventsFromChanges sampleHeap allKindsChanges).1.events = some allKindsBatch ∧
    List.Forall₂
      (fun (c : Change) (e : Event) => c.Table = "deployment" →
        e.Topic = TopicDeployment ∧
        ∃ p d, c.After = some p ∧ sampleHeap[p]? = some (Object.Deployment d) ∧
          e.Key = d.ID ∧ e.Namespace = d.Namespace ∧ e.FilterKeys = [d.JobID] ∧
          e.Payload = Payload.DeploymentEvent p ∧
          (GenericEventsFromChanges sampleHeap allKindsChanges).2[p]?
            = some (Object.Deployment d))
      (allKindsChanges.Changes.filter (fun c => knownTable c.Table)) allKindsBatch.Events :=
  ⟨by decide, by decide,
    C11_deployment_event sampleHeap allKindsChanges allKindsBatch (by decide) (by decide)⟩

/-- C12: in every returned batch, an event of topic Node or of topic Job has
no filter keys, and an event of topic Node has the empty namespace. -/
theorem C12_node_job_no_filter_keys (h : Heap) (cs : Changes) (b : Events)
    (hb : (GenericEventsFromChanges h cs).1.events = some b) :
    ∀ e ∈ b.Events,
      ((e.Topic = TopicNode ∨ e.Topic = TopicJob) → e.FilterKeys = []) ∧
      (e.Topic = TopicNode → e.Namespace = "") := by
  obtain ⟨ty, _, _, hall⟩ := GenericEventsFromChanges_events h cs b hb
  intro e he
  obtain ⟨c, _, k, k1, hR⟩ := forall₂_mem_right hall e he
  exact ⟨(EventOf_shape hR).2.2.2.1, (EventOf_shape hR).2.2.2.2⟩

/-- Witness of C12 on `allKindsChanges`, which has a node and a job change. -/
theorem C12_node_job_no_filter_keys_witness :
    (GenericEventsFromChanges sampleHeap allKindsChanges).1.events = some allKindsBatch ∧
    ∀ e ∈ allKindsBatch.Events,
      ((e.Topic = TopicNode ∨ e.Topic = TopicJob) → e.FilterKeys = []) ∧
      (e.Topic = TopicNode → e.Namespace = "") :=
  ⟨by decide,
    C12_node_job_no_filter_keys sampleHeap allKindsChanges allKindsBatch (by decide)⟩

/-- C13: in every returned batch (for a change set whose after-images point
into the heap of the call), the event produced from a change of table `evals`
has topic Eval, the evaluation ID as `Key`, the evaluation namespace as
`Namespace`, no filter keys, and as payload the pointer of the after-image
itself, whose evaluation is unchanged. -/
theorem C13_eval_event (h : Heap) (cs : Changes) (b : Events)
    (hv : validInput h cs = true)
    (hb : (GenericEventsFromChanges h cs).1.events = some b) :
    List.Forall₂
      (fun (c : Change) (e : Event) => c.Table = "evals" →
        e.Topic = TopicEval ∧
        ∃ p x, c.After = some p ∧ h[p]? = some (Object.Evaluation x) ∧
          e.Key = x.ID ∧ e.Namespace = x.Namespace ∧ e.FilterKeys = [] ∧
          e.Payload = Payload.EvalEvent p ∧
          (GenericEventsFromChanges h cs).2[p]? = some (Object.Evaluation x))
      (cs.Changes.filter (fun c => knownTable c.Table)) b.Events := by
  obtain ⟨ty, _, _, _, _, hall⟩ := GenericEventsFromChanges_batch h cs b hv hb
  obtain ⟨ext, hext⟩ := GenericEventsFromChanges_heap h cs
  refine hall.imp ?_
  intro c e hR hT
  obtain ⟨p, x, hA, hx, hE⟩ := EventOf_evals hR hT
  subst hE
  refine ⟨rfl, p, x, hA, hx, rfl, rfl, rfl, rfl, ?_⟩
  rw [hext, heap_get_append h ext p (heap_lt_of_get hx)]
  exact hx

/-- Witness of C13 on `allKindsChanges`. -/
theorem C13_eval_event_witness :
    validInput sampleHeap allKindsChanges = true ∧
    (GenericEventsFromChanges sampleHeap allKindsChanges).1.events = some allKindsBatch ∧
    List.Forall₂
      (fun (c : Change) (e : Event) => c.Table = "evals" →
        e.Topic = TopicEval ∧
        ∃ p x, c.After = some p ∧ sampleHeap[p]? = some (Object.Evaluation x) ∧
          e.Key = x.ID ∧ e.Namespace = x.Namespace ∧ e.FilterKeys = [] ∧
          e.Payload = Payload.EvalEvent p ∧
          (GenericEventsFromChanges sampleHeap allKindsChanges).2[p]?
            = some (Object.Evaluation x))
      (allKindsChanges.Changes.filter (fun c => knownTable c.Table)) allKindsBatch.Events :=
  ⟨by decide, by decide,
    C13_eval_event sampleHeap allKindsChanges allKindsBatch (by decide) (by decide)⟩

/-- C14: in every returned batch the events are paired, in order, with the
changes of the five tables, and the table of the change fixes both the topic
and the payload variant of its event: evals gives (Eval, EvalEvent), allocs
gives (Alloc, AllocEvent), jobs gives (Job, JobEvent), nodes gives (Node,
NodeEvent), deployment gives (Deployment, DeploymentEvent); so every event
pairs its topic with the payload variant of that topic, and none carries a
NodeDrainEvent payload. -/
theorem C14_topic_payload_pairing (h : Heap) (cs : Changes) (b : Events)
    (hb : (GenericEventsFromChanges h cs).1.events = some b) :
    List.Forall₂
      (fun (c : Change) (e : Event) =>
        (c.Table = "evals" → e.Topic = TopicEval ∧ ∃ p, e.Payload = Payload.EvalEvent p) ∧
        (c.Table = "allocs" → e.Topic = TopicAlloc ∧ ∃ p, e.Payload = Payload.AllocEvent p) ∧
        (c.Table = "jobs" → e.Topic = TopicJob ∧ ∃ p, e.Payload = Payload.JobEvent p) ∧
        (c.Table = "nodes" → e.Topic = TopicNode ∧ ∃ p, e.Payload = Payload.NodeEvent p) ∧
        (c.Table = "deployment" →
          e.Topic = TopicDeployment ∧ ∃ p, e.Payload = Payload.DeploymentEvent p))
      (cs.Changes.filter (fun c => knownTable c.Table)) b.Events ∧
    (∀ e ∈ b.Events, topicPayloadPaired e = true) ∧
    (∀ e ∈ b.Events, ∀ n ja, e.Payload ≠ Payload.NodeDrainEvent n ja) := by
  obtain ⟨ty, _, _, hall⟩ := GenericEventsFromChanges_events h cs b hb
  refine ⟨hall.imp ?_, ?_, ?_⟩
  · rintro c e ⟨k, k1, hR⟩
    refine ⟨fun hT => ?_, fun hT => ?_, fun hT => ?_, fun hT => ?_, fun hT => ?_⟩
    · obtain ⟨p, x, _, _, hE⟩ := EventOf_evals hR hT
      subst hE; exact ⟨rfl, p, rfl⟩
    · obtain ⟨p, x, q, _, _, _, _, hE⟩ := EventOf_allocs hR hT
      subst hE; exact ⟨rfl, q, rfl⟩
    · obtain ⟨p, x, _, _, hE⟩ := EventOf_jobs hR hT
      subst hE; exact ⟨rfl, p, rfl⟩
    · obtain ⟨p, x, _, _, hE⟩ := EventOf_nodes hR hT
      subst hE; exact ⟨rfl, p, rfl⟩
    · obtain ⟨p, x, _, _, hE⟩ := EventOf_deployment hR hT
      subst hE; exact ⟨rfl, p, rfl⟩
  · intro e he
    obtain ⟨c, _, k, k1, hR⟩ := forall₂_mem_right hall e he
    exact (EventOf_shape hR).2.2.1
  · intro e he n ja hpay
    obtain ⟨c, _, k, k1, hR⟩ := forall₂_mem_right hall e he
    have := (EventOf_shape hR).2.2.1
    simp [topicPayloadPaired, hpay] at this

/-- Witness of C14 on `allKindsChanges`. -/
theorem C14_topic_payload_pairing_witness :
    (GenericEventsFromChanges sampleHeap allKindsChanges).1.events = some allKindsBatch ∧
    (List.Forall₂
      (fun (c : Change) (e : Event) =>
        (c.Table = "evals" → e.Topic = TopicEval ∧ ∃ p, e.Payload = Payload.EvalEvent p) ∧
        (c.Table = "allocs" → e.Topic = TopicAlloc ∧ ∃ p, e.Payload = Payload.AllocEvent p) ∧
        (c.Table = "jobs" → e.Topic = TopicJob ∧ ∃ p, e.Payload = Payload.JobEvent p) ∧
        (c.Table = "nodes" → e.Topic = TopicNode ∧ ∃ p, e.Payload = Payload.NodeEvent p) ∧
        (c.Table = "deployment" →
          e.Topic = TopicDeployment ∧ ∃ p, e.Payload = Payload.DeploymentEvent p))
      (allKindsChanges.Changes.filter (fun c => knownTable c.Table)) allKindsBatch.Events ∧
    (∀ e ∈ allKindsBatch.Events, topicPayloadPaired e = true) ∧
    (∀ e ∈ allKindsBatch.Events, ∀ n ja, e.Payload ≠ Payload.NodeDrainEvent n ja)) :=
  ⟨by decide,
    C14_topic_payload_pairing sampleHeap allKindsChanges allKindsBatch (by decide)⟩

theorem forRange_filter (ty : String) (idx : Nat) :
    ∀ (cs : List Change) (g : Heap) (evs : List Event),
      forRange ty idx (cs.filter (fun c => knownTable c.Table)) g evs
        = forRange ty idx cs g evs := by
  intro cs
  induction cs with
  | nil => intro g evs; rfl
  | cons c cs ih =>
    intro g evs
    cases hk : knownTable c.Table with
    | false =>
      simp only [List.filter_cons, hk, forRange, loopBody_skip ty idx c g evs hk]
      exact ih g evs
    | true =>
      simp only [List.filter_cons, hk, if_true, forRange]
      cases hb : loopBody ty idx c g evs with
      | ret r g1 => rfl
      | next g1 evs1 => exact ih g1 evs1

/-- C15: changes of a table other than evals, allocs, jobs, nodes and
deployment are skipped: the result of the call (batch, error and heap) is the
result on the change set with those changes removed, whether they are deleted
or not and whatever their after-image. -/
theorem C15_other_tables_skipped (h : Heap) (cs : Changes) :
    GenericEventsFromChanges h cs
      = GenericEventsFromChanges h
          ⟨cs.Index, cs.Changes.filter (fun c => knownTable c.Table), cs.MsgType⟩ := by
  unfold GenericEventsFromChanges
  cases hty : eventTypeOf cs.MsgType with
  | none => rfl
  | some ty =>
    simp only [forRange_filter]

/-- C16: the write-type classifier is the static table `classifierTable`:
each of the sixteen listed tags gets its label and every other tag is
unrecognized; node-status-update and upsert-node-events share "NodeEvent";
the declared labels "NodeDeregistration", "NodeEligibility" and "AllocCreated"
are given to no tag.  The call follows the table: an unlisted tag is answered
with `nil, nil`, and every event of a returned batch carries the label of the
tag of the change set. -/
theorem C16_classifier_table :
    (∀ t, eventTypeOf t = tableLabel t) ∧
    eventTypeOf MessageType.NodeUpdateStatusRequestType = some "NodeEvent" ∧
    eventTypeOf MessageType.UpsertNodeEventsType = some "NodeEvent" ∧
    TypeNodeDeregistration = "NodeDeregistration" ∧
    TypeNodeEligibilityUpdate = "NodeEligibility" ∧
    TypeAllocCreated = "AllocCreated" ∧
    (∀ t, eventTypeOf t ≠ some "NodeDeregistration" ∧
      eventTypeOf t ≠ some "NodeEligibility" ∧ eventTypeOf t ≠ some "AllocCreated") ∧
    (∀ (h : Heap) (cs : Changes), tableLabel cs.MsgType = none →
      (GenericEventsFromChanges h cs).1 = ⟨none, none⟩) ∧
    (∀ (h : Heap) (cs : Changes) (b : Events),
      (GenericEventsFromChanges h cs).1.events = some b →
      ∀ e ∈ b.Events, tableLabel cs.MsgType = some e.Type_) := by
  have htab : ∀ t, eventTypeOf t = tableLabel t := by
    intro t
    cases t <;> rfl
  refine ⟨htab, rfl, rfl, rfl, rfl, rfl, ?_, ?_, ?_⟩
  · intro t
    cases t <;> simp [eventTypeOf] <;> decide
  · intro h cs hnone
    rw [← htab] at hnone
    simp [GenericEventsFromChanges, hnone]
  · intro h cs b hb e he
    obtain ⟨ty, hty, _, hall⟩ := GenericEventsFromChanges_events h cs b hb
    obtain ⟨c, _, k, k1, hR⟩ := forall₂_mem_right hall e he
    rw [← htab, hty, (EventOf_shape hR).1]

/-- Witness of C16: the node-deregistration tag is not in the table, and the
events of `allKindsBatch` carry the label of the job-register tag. -/
theorem C16_classifier_table_witness :
    (tableLabel MessageType.NodeDeregisterRequestType = none ∧
      (GenericEventsFromChanges sampleHeap
        ⟨42, [nodeChange], MessageType.NodeDeregisterRequestType⟩).1 = ⟨none, none⟩) ∧
    ((GenericEventsFromChanges sampleHeap allKindsChanges).1.events = some allKindsBatch ∧
      ∀ e ∈ allKindsBatch.Events, tableLabel allKindsChanges.MsgType = some e.Type_) :=
  ⟨⟨by decide,
      C16_classifier_table.2.2.2.2.2.2.2.1 sampleHeap
        ⟨42, [nodeChange], MessageType.NodeDeregisterRequestType⟩ (by decide)⟩,
    ⟨by decide,
      C16_classifier_table.2.2.2.2.2.2.2.2 sampleHeap allKindsChanges allKindsBatch
        (by decide)⟩⟩

/-- C17: for a recognized write-type and a change set with no change, or with
changes of tables outside the five only, the call returns a nil error and a
batch (not nil) that carries the index of the change set and no event; the
heap is untouched.  This is not the `nil, nil` of an unrecognized write-type
or of a deletion. -/
theorem C17_empty_batch (h : Heap) (idx : Nat) (t : MessageType) (cs : List Change)
    (ht : t ∈ handledTags) (hcs : ∀ c ∈ cs, knownTable c.Table = false) :
    GenericEventsFromChanges h ⟨idx, cs, t⟩ = (⟨some ⟨idx, []⟩, none⟩, h) ∧
    (GenericEventsFromChanges h ⟨idx, cs, t⟩).1.events ≠ none ∧
    (GenericEventsFromChanges h ⟨idx, cs, t⟩).1 ≠ ⟨none, none⟩ := by
  obtain ⟨ty, hty⟩ := (mem_handledTags_iff _).1 ht
  have hfil : cs.filter (fun c => knownTable c.Table) = [] := by
    rw [List.filter_eq_nil_iff]
    intro c hc
    simp [hcs c hc]
  have hrun : forRange ty idx cs h [] = Step.next h [] := by
    rw [← forRange_filter, hfil]
    rfl
  have hG : GenericEventsFromChanges h ⟨idx, cs, t⟩ = (⟨some ⟨idx, []⟩, none⟩, h) := by
    simp [GenericEventsFromChanges, hty, hrun]
  rw [hG]
  exact ⟨rfl, by simp, by simp⟩

/-- Witness of C17: changes of another table only, one of them deleted. -/
theorem C17_empty_batch_witness :
    MessageType.EvalUpdateRequestType ∈ handledTags ∧
    (∀ c ∈ [summaryChange, deletedSummaryChange], knownTable c.Table = false) ∧
    GenericEventsFromChanges sampleHeap
        ⟨42, [summaryChange, deletedSummaryChange], MessageType.EvalUpdateRequestType⟩
      = (⟨some ⟨42, []⟩, none⟩, sampleHeap) ∧
    (GenericEventsFromChanges sampleHeap
        ⟨42, [summaryChange, deletedSummaryChange],
          MessageType.EvalUpdateRequestType⟩).1.events ≠ none ∧
    (GenericEventsFromChanges sampleHeap
        ⟨42, [summaryChange, deletedSummaryChange], MessageType.EvalUpdateRequestType⟩).1
      ≠ ⟨none, none⟩ :=
  ⟨by decide, by decide,
    C17_empty_batch sampleHeap 42 MessageType.EvalUpdateRequestType
      [summaryChange, deletedSummaryChange] (by decide) (by decide)⟩

/-- C18: the outcome of the call for a recognized write-type (and a change set
whose after-images point into the heap of the call) is decided by the first
change, in order, that is in one of the five tables and is deleted or has an
after-image of the wrong kind: when there is none, the call returns a batch
with one event per change of the five tables and a nil error; when it is
deleted, `nil, nil`; otherwise a nil batch and a non-nil error. -/
theorem C18_outcome (h : Heap) (cs : Changes)
    (ht : cs.MsgType ∈ handledTags) (hv : validInput h cs = true) :
    (cs.Changes.find? (offending h) = none →
      ∃ evs : List Event,
        (GenericEventsFromChanges h cs).1 = ⟨some ⟨cs.Index, evs⟩, none⟩ ∧
        evs.length = (cs.Changes.filter (fun c => knownTable c.Table)).length) ∧
    (∀ c, cs.Changes.find? (offending h) = some c → c.Deleted = true →
      (GenericEventsFromChanges h cs).1 = ⟨none, none⟩) ∧
    (∀ c, cs.Changes.find? (offending h) = some c → c.Deleted = false →
      (GenericEventsFromChanges h cs).1.events = none ∧
      ∃ msg, (GenericEventsFromChanges h cs).1.err = some msg) := by
  obtain ⟨ty, hty⟩ := (mem_handledTags_iff _).1 ht
  have hv2 := (validInput_iff h cs).1 hv
  obtain ⟨ext, _, hspec⟩ :=
    GenericEventsFromChanges_spec h cs ty hty (fun c hc _ _ _ => hv2 c hc)
  refine ⟨fun hf => ?_, fun c hf hd => ?_, fun c hf hd => ?_⟩
  · simp only [hf] at hspec
    obtain ⟨evs, hres, hall⟩ := hspec
    exact ⟨evs, hres, hall.length_eq.symm⟩
  · simp only [hf, hd, if_true] at hspec
    exact hspec
  · simp only [hf, hd] at hspec
    rw [hspec]
    exact ⟨rfl, _, rfl⟩

/-- Witness of C18: no offending change in `allKindsChanges`; a deletion before
a type mismatch suppresses the error; a type mismatch before a deletion yields
the error. -/
theorem C18_outcome_witness :
    (allKindsChanges.MsgType ∈ handledTags ∧ validInput sampleHeap allKindsChanges = true ∧
      allKindsChanges.Changes.find? (offending sampleHeap) = none ∧
      ∃ evs : List Event,
        (GenericEventsFromChanges sampleHeap allKindsChanges).1
          = ⟨some ⟨allKindsChanges.Index, evs⟩, none⟩ ∧
        evs.length = (allKindsChanges.Changes.filter (fun c => knownTable c.Table)).length) ∧
    ([jobChange, deletedJobChange, mismatchedJobChange].find? (offending sampleHeap)
        = some deletedJobChange ∧ deletedJobChange.Deleted = true ∧
      (GenericEventsFromChanges sampleHeap
        ⟨42, [jobChange, deletedJobChange, mismatchedJobChange],
          MessageType.JobRegisterRequestType⟩).1 = ⟨none, none⟩) ∧
    ([jobChange, mismatchedJobChange, deletedJobChange].find? (offending sampleHeap)
        = some mismatchedJobChange ∧ mismatchedJobChange.Deleted = false ∧
      (GenericEventsFromChanges sampleHeap
        ⟨42, [jobChange, mismatchedJobChange, deletedJobChange],
          MessageType.JobRegisterRequestType⟩).1.events = none ∧
      ∃ msg, (GenericEventsFromChanges sampleHeap
        ⟨42, [jobChange, mismatchedJobChange, deletedJobChange],
          MessageType.JobRegisterRequestType⟩).1.err = some msg) :=
  ⟨⟨by decide, by decide, by decide,
      (C18_outcome sampleHeap allKindsChanges (by decide) (by decide)).1 (by decide)⟩,
    ⟨by decide, by decide,
      (C18_outcome sampleHeap
        ⟨42, [jobChange, deletedJobChange, mismatchedJobChange],
          MessageType.JobRegisterRequestType⟩ (by decide) (by decide)).2.1
        deletedJobChange (by decide) (by decide)⟩,
    ⟨by decide, by decide,
      (C18_outcome sampleHeap
        ⟨42, [jobChange, mismatchedJobChange, deletedJobChange],
          MessageType.JobRegisterRequestType⟩ (by decide) (by decide)).2.2
        mismatchedJobChange (by decide) (by decide)⟩⟩

/-- C19: in every returned batch all events carry the same `Type_`, the label
the classifier gives to the write-type of the change set, whatever the table
of the change and the topic of the event. -/
theorem C19_events_share_type (h : Heap) (cs : Changes) (b : Events)
    (hb : (GenericEventsFromChanges h cs).1.events = some b) :
    ∃ ty, eventTypeOf cs.MsgType = some ty ∧ ∀ e ∈ b.Events, e.Type_ = ty := by
  obtain ⟨ty, hty, _, hall⟩ := GenericEventsFromChanges_events h cs b hb
  refine ⟨ty, hty, ?_⟩
  intro e he
  obtain ⟨c, _, k, k1, hR⟩ := forall₂_mem_right hall e he
  exact (EventOf_shape hR).1

/-- Witness of C19: an evals change in a JobRegister change set yields an event
of topic Eval with type "JobRegistered". -/
theorem C19_events_share_type_witness :
    (GenericEventsFromChanges sampleHeap
      ⟨42, [evalChange], MessageType.JobRegisterRequestType⟩).1.events
      = some ⟨42, [⟨"Eval", "JobRegistered", "e1", "default", [], 42, Payload.EvalEvent 2⟩]⟩ ∧
    ∃ ty, eventTypeOf MessageType.JobRegisterRequestType = some ty ∧
      ∀ e ∈ [(⟨"Eval", "JobRegistered", "e1", "default", [], 42, Payload.EvalEvent 2⟩ : Event)],
        e.Type_ = ty :=
  ⟨by decide,
    C19_events_share_type sampleHeap ⟨42, [evalChange], MessageType.JobRegisterRequestType⟩
      ⟨42, [⟨"Eval", "JobRegistered", "e1", "default", [], 42, Payload.EvalEvent 2⟩]⟩
      (by decide)⟩

/-- C20: when the call returns an error (for a change set whose after-images
point into the heap of the call), the batch is nil, the error comes from the
first offending change, which is not deleted, and the message is fixed by the
table of that change: evals gives "transaction change was not an Evaluation",
allocs and jobs give "transaction change was not an Allocation", nodes and
deployment give "transaction change was not a Node". -/
theorem C20_mismatch_messages (h : Heap) (cs : Changes) (msg : String)
    (hv : validInput h cs = true)
    (herr : (GenericEventsFromChanges h cs).1.err = some msg) :
    ∃ c, cs.Changes.find? (offending h) = some c ∧ c.Deleted = false ∧
      knownTable c.Table = true ∧
      (GenericEventsFromChanges h cs).1.events = none ∧
      (c.Table = "evals" → msg = "transaction change was not an Evaluation") ∧
      (c.Table = "allocs" → msg = "transaction change was not an Allocation") ∧
      (c.Table = "jobs" → msg = "transaction change was not an Allocation") ∧
      (c.Table = "nodes" → msg = "transaction change was not a Node") ∧
      (c.Table = "deployment" → msg = "transaction change was not a Node") := by
  cases hty : eventTypeOf cs.MsgType with
  | none => simp [GenericEventsFromChanges, hty] at herr
  | some ty =>
    have hv2 := (validInput_iff h cs).1 hv
    obtain ⟨ext, _, hspec⟩ :=
      GenericEventsFromChanges_spec h cs ty hty (fun c hc _ _ _ => hv2 c hc)
    cases hf : cs.Changes.find? (offending h) with
    | none =>
      simp only [hf] at hspec
      obtain ⟨evs, hres, _⟩ := hspec
      rw [hres] at herr
      cases herr
    | some c =>
      simp only [hf] at hspec
      cases hd : c.Deleted with
      | true =>
        simp only [hd, if_true] at hspec
        rw [hspec] at herr
        cases herr
      | false =>
        simp only [hd] at hspec
        rw [hspec] at herr
        simp at herr
        have hoff := (offending_of_find hf).2
        have hk : knownTable c.Table = true := by
          simp only [offending, Bool.and_eq_true] at hoff
          exact hoff.1
        refine ⟨c, rfl, hd, hk, by rw [hspec], ?_, ?_, ?_, ?_, ?_⟩ <;>
          intro hT <;> rw [← herr] <;> simp [mismatchMessage, hT]

/-- Witness of C20: an ill-typed job change gives the message that names an
allocation. -/
theorem C20_mismatch_messages_witness :
    validInput sampleHeap
      ⟨42, [jobChange, mismatchedJobChange], MessageType.JobRegisterRequestType⟩ = true ∧
    (GenericEventsFromChanges sampleHeap
      ⟨42, [jobChange, mismatchedJobChange], MessageType.JobRegisterRequestType⟩).1.err
      = some "transaction change was not an Allocation" ∧
    ∃ c, [jobChange, mismatchedJobChange].find? (offending sampleHeap) = some c ∧
      c.Deleted = false ∧ knownTable c.Table = true ∧
      (GenericEventsFromChanges sampleHeap
        ⟨42, [jobChange, mismatchedJobChange],
          MessageType.JobRegisterRequestType⟩).1.events = none ∧
      (c.Table = "evals" →
        "transaction change was not an Allocation" = "transaction change was not an Evaluation") ∧
      (c.Table = "allocs" →
        "transaction change was not an Allocation" = "transaction change was not an Allocation") ∧
      (c.Table = "jobs" →
        "transaction change was not an Allocation" = "transaction change was not an Allocation") ∧
      (c.Table = "nodes" →
        "transaction change was not an Allocation" = "transaction change was not a Node") ∧
      (c.Table = "deployment" →
        "transaction change was not an Allocation" = "transaction change was not a Node") :=
  ⟨by decide, by decide,
    C20_mismatch_messages sampleHeap
      ⟨42, [jobChange, mismatchedJobChange], MessageType.JobRegisterRequestType⟩
      "transaction change was not an Allocation" (by decide) (by decide)⟩

end NomadState
